import Mathlib

/-!
Shallow embedding of the STAT-EZ cleaning pipeline
(`src/backend/app.py` and `src/backend/data_processor.py`).

Tables are modelled columnar: a table is an ordered list of named, typed
columns, each holding an ordered list of cells.  Machine floats are modelled
as exact rationals; pandas `NaN` is the explicit cell `Cell.na`.
-/

namespace StatEz

/-- A cell of a pandas dataframe: missing (`NaN`), a number, a string,
a boolean, or a datetime value (dates carry their normalised textual form;
calendar arithmetic is never needed by the pipeline). -/
inductive Cell where
  | na : Cell
  | num : ℚ → Cell
  | str : String → Cell
  | bool : Bool → Cell
  | date : String → Cell
deriving Repr, DecidableEq

/-- The pandas dtype of a column, as used by `select_dtypes` /
`dtype == 'object'` checks in the source. -/
inductive DType where
  | numeric
  | object
  | boolean
  | datetime
deriving Repr, DecidableEq

/-- One named dataframe column. -/
structure Column where
  name : String
  dtype : DType
  cells : List Cell
deriving Repr, DecidableEq

/-- A dataframe: ordered sequence of named columns. -/
abbrev Table := List Column

/-- `c.isNa` : the cell is missing (`pd.isnull`). -/
def Cell.isNa : Cell → Bool
  | .na => true
  | _ => false

/-- The numeric value of a cell, when it has one. -/
def Cell.asNum : Cell → Option ℚ
  | .num q => some q
  | _ => none

/-- Number of rows of a dataframe (`len(df)`); columns share one length. -/
def rowCount (t : Table) : Nat :=
  match t with
  | [] => 0
  | c :: _ => c.cells.length

/-- `df[col].dropna()` for one column: the non-missing cells, in order. -/
def nonNa (cells : List Cell) : List Cell :=
  cells.filter (fun c => !c.isNa)

/-- Missing-value count of one column (`df[col].isnull().sum()`). -/
def missingCount (cells : List Cell) : Nat :=
  (cells.filter (fun c => c.isNa)).length

/-- `df.isnull().sum().to_dict()`: per-column missing counts, column order. -/
def missingCounts (t : Table) : List (String × Nat) :=
  t.map (fun c => (c.name, missingCount c.cells))

/-- The numeric content of a column: the values of its `num` cells
(`NaN` and non-numeric cells dropped), in order. -/
def presentNums (cells : List Cell) : List ℚ :=
  cells.filterMap Cell.asNum

/-- Cells of the (first) column named `n` (`df[n]`). -/
def colCells (t : Table) (n : String) : List Cell :=
  match t.find? (fun c => c.name = n) with
  | some c => c.cells
  | none => []

/-- Missing count of the column named `n`. -/
def colMissing (t : Table) (n : String) : Nat :=
  missingCount (colCells t n)

/-- Names of the numeric-dtype columns
(`df.select_dtypes(include=[np.number]).columns`), table order. -/
def numericNames (t : Table) : List String :=
  (t.filter (fun c => c.dtype = .numeric)).map (fun c => c.name)

/-- Replace the column(s) named `n` by `g` applied to them
(`df[n] = ...` column assignment). -/
def updateByName (t : Table) (n : String) (g : Column → Column) : Table :=
  t.map (fun c => if c.name = n then g c else c)

/-- Keep exactly the positions of `xs` whose mask entry is `true`
(boolean-mask row selection). -/
def filterMask (mask : List Bool) (xs : List α) : List α :=
  ((xs.zip mask).filter (fun p => p.2)).map (fun p => p.1)

/-- Row `i` is complete over the whole table: no cell of row `i` is missing. -/
def rowComplete (t : Table) (i : Nat) : Bool :=
  t.all (fun c => !(c.cells.getD i Cell.na).isNa)

/-- The row mask selected by `df.dropna()`: rows with no missing cell. -/
def completeMask (t : Table) : List Bool :=
  (List.range (rowCount t)).map (fun i => rowComplete t i)

/-- Number of fully complete rows of the table. -/
def completeRowCount (t : Table) : Nat :=
  ((List.range (rowCount t)).filter (fun i => rowComplete t i)).length

/-- `df.dropna()`: drop every row containing a missing value. -/
def dropNaRows (t : Table) : Table :=
  t.map (fun c => { c with cells := filterMask (completeMask t) c.cells })

/-- Row `i` is complete over the column subset `cols`
(`df.dropna(subset=cols)` keeps it). -/
def rowCompleteOn (t : Table) (cols : List String) (i : Nat) : Bool :=
  cols.all (fun n => !((colCells t n).getD i Cell.na).isNa)

/-- `len(df.dropna(subset=cols))`: rows complete across the column subset. -/
def completeRowCountOn (t : Table) (cols : List String) : Nat :=
  ((List.range (rowCount t)).filter (fun i => rowCompleteOn t cols i)).length


/-- Whitespace characters stripped by Python `str.strip()`. -/
def pySpace (c : Char) : Bool :=
  c == ' ' || c == '\t' || c == '\n' || c == '\r' ||
    c == '\x0b' || c == '\x0c'

/-- `str.strip()` on a character list. -/
def stripChars (l : List Char) : List Char :=
  ((l.dropWhile pySpace).reverse.dropWhile pySpace).reverse


/-! ### Exact-rational statistics (pandas/numpy numeric primitives) -/

/-- Sum of a list of rationals. -/
def listSum (l : List ℚ) : ℚ := l.foldl (· + ·) 0

/-- `Series.mean()` over the present values. -/
def meanQ (l : List ℚ) : ℚ := listSum l / l.length

/-- Population variance (`ddof=0`), as used by `scipy.stats.zscore`. -/
def varQ (l : List ℚ) : ℚ :=
  listSum (l.map (fun x => (x - meanQ l) ^ 2)) / l.length

/-- `Series.median()`: middle element of the sorted values, or the average
of the two middle elements for an even count. -/
def medianQ (l : List ℚ) : ℚ :=
  let v := List.insertionSort (· ≤ ·) l
  let m := v.length
  if m % 2 = 1 then v.getD (m / 2) 0
  else (v.getD (m / 2 - 1) 0 + v.getD (m / 2) 0) / 2

/-- Linear-interpolation quantile of an already-sorted value list, the
default interpolation of `Series.quantile`: with `h = p·(m−1)`,
`i = ⌊h⌋`, the result is `v[i] + (h − i)·(v[min(i+1, m−1)] − v[i])`. -/
def quantileSorted (v : List ℚ) (p : ℚ) : ℚ :=
  let m := v.length
  let h : ℚ := p * (m - 1)
  let i : ℕ := (Int.floor h).toNat
  let a := v.getD i 0
  let b := v.getD (min (i + 1) (m - 1)) 0
  a + (h - i) * (b - a)

/-- `Series.quantile(p)` over the present values (pandas sorts internally
and ignores missing values). -/
def quantileQ (l : List ℚ) (p : ℚ) : ℚ :=
  quantileSorted (List.insertionSort (· ≤ ·) l) p

/-- Substring containment on character lists (`value in str(x)` /
`Series.str.contains` with a literal pattern). -/
def containsSub (pat l : List Char) : Bool :=
  (List.range (l.length + 1)).any (fun i => pat.isPrefixOf (l.drop i))

/-- Python `float(s)` / `pd.to_numeric` string parsing, restricted to plain
signed decimal literals (the exponent and infinity forms are never produced
by the claims' inputs): strip, optional sign, digits with an optional
decimal point, at least one digit in total. -/
def parsePyFloat (s : String) : Option ℚ :=
  let l := stripChars s.data
  let core := fun (l2 : List Char) =>
    let p := l2.span (fun c => c.isDigit)
    let intPart := p.1
    let fracPart :=
      match p.2 with
      | '.' :: r => if r.all (fun c => c.isDigit) then some r else none
      | [] => some []
      | _ => none
    match fracPart with
    | none => none
    | some fr =>
      if intPart.isEmpty && fr.isEmpty then none
      else
        let iv : ℕ := intPart.foldl (fun acc c => acc * 10 + (c.toNat - 48)) 0
        let fv : ℕ := fr.foldl (fun acc c => acc * 10 + (c.toNat - 48)) 0
        some ((iv : ℚ) + (fv : ℚ) / ((10 : ℚ) ^ fr.length))
  match l with
  | '-' :: rest => (core rest).map (fun q => -q)
  | '+' :: rest => core rest
  | _ => core l

/-! ### Value-classification heuristics (`DataAnalysisDecisionEngine`)

The three Python regexes of `analyze_mixed_column` are modelled as total
functions over the character list of the (stripped) string:
  * `^-?\d+\.?\d*$` is `isNumericStr`;
  * date: 1-4 digits, a dash-or-slash separator, 1-2 digits, a separator,
    1-4 digits, anchored at the start only (Python `re.match` does not
    anchor the end) is `isDateStr`;
  * `^[A-Za-z0-9]+$` plus "has a digit and a letter" is `isMixedAlnumStr`.
-/

/-- Match `\d+\.?\d*$` against `l` (used after the optional leading sign). -/
def numericCore (l : List Char) : Bool :=
  let p := l.span (fun c => c.isDigit)
  !p.1.isEmpty &&
    (p.2.isEmpty ||
      (p.2.headD ' ' == '.' && (p.2.tailD []).all (fun c => c.isDigit)))

/-- Match the full-string numeric pattern `^-?\d+\.?\d*$`. -/
def isNumericStr (s : String) : Bool :=
  match s.data with
  | '-' :: rest => numericCore rest
  | l => numericCore l

/-- Match the date pattern (1-4 digits, separator, 1-2 digits, separator,
1-4 digits) at the start of the string; the end is not anchored. -/
def isDateStr (s : String) : Bool :=
  let p1 := s.data.span (fun c => c.isDigit)
  decide (1 ≤ p1.1.length) && decide (p1.1.length ≤ 4) &&
    match p1.2 with
    | c1 :: r1 =>
      (c1 == '-' || c1 == '/') &&
        (let p2 := r1.span (fun c => c.isDigit)
         decide (1 ≤ p2.1.length) && decide (p2.1.length ≤ 2) &&
           match p2.2 with
           | c2 :: r2 =>
             (c2 == '-' || c2 == '/') &&
               (let p3 := r2.span (fun c => c.isDigit)
                decide (1 ≤ p3.1.length) && decide (p3.1.length ≤ 4))
           | [] => false)
    | [] => false

/-- Match `^[A-Za-z0-9]+$` with at least one digit and one letter. -/
def isMixedAlnumStr (s : String) : Bool :=
  !s.data.isEmpty && s.data.all (fun c => c.isAlpha || c.isDigit) &&
    s.data.any (fun c => c.isDigit) && s.data.any (fun c => c.isAlpha)

/-- The four sample-value buckets of `analyze_mixed_column`. -/
inductive Bucket where
  | numeric
  | date
  | mixedAl
  | text
deriving Repr, DecidableEq

/-- Classify one sample value, in the source's `if/elif/elif/else` priority
order, after `str(value).strip()`. -/
def classify (v : String) : Bucket :=
  let s : String := String.mk (stripChars v.data)
  if isNumericStr s then .numeric
  else if isDateStr s then .date
  else if isMixedAlnumStr s then .mixedAl
  else .text

/-- `str(value)` for a sampled cell. -/
def cellToString : Cell → String
  | .na => "nan"
  | .num q => toString q
  | .str s => s
  | .bool b => if b then "True" else "False"
  | .date s => s

end StatEz

namespace StatEz.App

open StatEz

/-- One suggestion of the decision engine (the bit-exact `action` and
`confidence` strings; the free-text description/reasoning fields carry no
behaviour and are not modelled). -/
structure Suggestion where
  action : String
  confidence : String
deriving Repr, DecidableEq

/-- Result record of `analyze_mixed_column`. -/
structure Analysis where
  column_name : String
  sample_values : List String
  numeric_ratio : ℚ
  text_ratio : ℚ
  date_ratio : ℚ
  mixed_ratio : ℚ
  suggestions : List Suggestion
deriving Repr, DecidableEq

/-- `DataAnalysisDecisionEngine.analyze_mixed_column` (`app.py:52-135`):
sample up to 20 non-missing values, bucket-count them, and emit the
threshold-gated suggestion list.  Returns `none` on an empty sample. -/
def analyze_mixed_column (columnData : List Cell) (columnName : String) :
    Option Analysis :=
  let sampleValues := ((nonNa columnData).take 20).map cellToString
  let buckets := sampleValues.map classify
  let numericCount := (buckets.filter (fun b => b = .numeric)).length
  let textCount := (buckets.filter (fun b => b = .text)).length
  let dateCount := (buckets.filter (fun b => b = .date)).length
  let mixedCount := (buckets.filter (fun b => b = .mixedAl)).length
  let total := sampleValues.length
  if total = 0 then none
  else
    let suggestions :=
      (if (numericCount : ℚ) / total > 4/5 then
        [Suggestion.mk "convert_to_numeric" "high"] else []) ++
      (if (dateCount : ℚ) / total > 3/5 then
        [Suggestion.mk "convert_to_date" "high"] else []) ++
      (if (mixedCount : ℚ) / total > 7/10 then
        [Suggestion.mk "keep_as_categorical" "medium"] else []) ++
      [Suggestion.mk "keep_as_text" "safe"] ++
      (if 0 < mixedCount ∧ 0 < numericCount then
        [Suggestion.mk "split_column" "medium"] else [])
    some
      { column_name := columnName
        sample_values := sampleValues.take 10
        numeric_ratio := (numericCount : ℚ) / total
        text_ratio := (textCount : ℚ) / total
        date_ratio := (dateCount : ℚ) / total
        mixed_ratio := (mixedCount : ℚ) / total
        suggestions := suggestions }

/-- Round a rational to the nearest integer, ties to even
(the IEEE default rounding direction). -/
def roundEvenQ (x : ℚ) : ℤ :=
  let f := ⌊x⌋
  if x - f < 1/2 then f
  else if 1/2 < x - f then f + 1
  else if f % 2 = 0 then f else f + 1

/-- Binary64 rounding of a positive rational: 53 significant bits, round
to nearest, ties to even; `Int.log 2 q` is the floor base-2 logarithm. -/
def flPos (q : ℚ) : ℚ :=
  (roundEvenQ (q * (2:ℚ) ^ ((52:ℤ) - Int.log 2 q)) : ℚ) *
    (2:ℚ) ^ (Int.log 2 q - 52)

/-- The IEEE binary64 (Python float) value of a rational number: round to
nearest, ties to even, 53 bits of precision. Overflow and subnormal
underflow are not modelled; the ratio values of `analyze_mixed_column`
lie in `[0, 1]` with denominators at most 20, far inside the normal
range, where this is exactly the Python float semantics. -/
def fl (q : ℚ) : ℚ :=
  if q = 0 then 0 else if 0 < q then flPos q else -flPos (-q)

/-- The ratio values the program actually stores: Python computes
`numeric_count / total` and its three siblings with IEEE double-precision
division of exact small integers, whose result is the binary64 rounding
of the exact quotient. `analyze_mixed_column` above keeps the exact
rational quotients; this is the float view of its four ratio fields. -/
def storedRatios (a : Analysis) : ℚ × ℚ × ℚ × ℚ :=
  (fl a.numeric_ratio, fl a.text_ratio, fl a.date_ratio, fl a.mixed_ratio)

/-- `DataProcessor.detect_mixed_columns` (`app.py:151-164`): analyze every
object-dtype column with a non-empty sample of up to 50 non-missing values;
keep the analyses with more than one suggestion. -/
def detect_mixed_columns (t : Table) : List Analysis :=
  t.filterMap (fun c =>
    if c.dtype = .object then
      let sampleData := (nonNa c.cells).take 50
      if 0 < sampleData.length then
        match analyze_mixed_column sampleData c.name with
        | some a => if 1 < a.suggestions.length then some a else none
        | none => none
      else none
    else none)


/-! ### Schema mapping (`DataProcessor.apply_schema_mapping`, `app.py:1130`) -/

/-- The candidate-name `while` loop of `apply_schema_mapping`: the first name
in `mappedType, mappedType_1, mappedType_2, ...` that is not a current column
name distinct from `originalCol`.  The loop always exits within
`cols.length + 1` suffixed candidates (the suffixed names are pairwise
distinct, so they cannot all occur among the finitely many columns). -/
def findMappedName (cols : List String) (originalCol mappedType : String) :
    String :=
  ((mappedType :: (List.range (cols.length + 1)).map
      (fun k => mappedType ++ "_" ++ toString (k + 1))).find?
    (fun n => !(cols.contains n && n != originalCol))).getD mappedType

/-- The `rename_map` built by `apply_schema_mapping`: for every mapping
entry whose target differs from `"other"` and from the existing name,
record the chosen collision-free name (checked only against the current
column names, which do not change while the map is being built). -/
def buildRenameMap (mapping : List (String × String)) (cols : List String) :
    List (String × String) :=
  mapping.foldl (fun rm p =>
    if p.2 != "other" && p.2 != p.1 then
      let newName := findMappedName cols p.1 p.2
      if newName != p.1 then rm ++ [(p.1, newName)] else rm
    else rm) []

/-- `df.rename(columns=rm)`. -/
def renameWith (rm : List (String × String)) (t : Table) : Table :=
  t.map (fun c =>
    match rm.find? (fun p => p.1 == c.name) with
    | some p => { c with name := p.2 }
    | none => c)

/-- `DataProcessor.apply_schema_mapping` (`app.py:1130-1152`). -/
def apply_schema_mapping (mapping : List (String × String)) (t : Table)
    (logs : List String) : Table × List String :=
  if mapping.isEmpty then (t, logs)
  else
    let rm := buildRenameMap mapping (t.map (fun c => c.name))
    if rm.isEmpty then (t, logs)
    else (renameWith rm t, logs ++ ["Applied schema mapping"])

/-! ### Column decisions (`DataProcessor.apply_column_decisions`, `app.py:166`) -/

/-- A user decision for one mixed column. -/
structure Decision where
  action : String
  drop_original : Bool := false
deriving Repr, DecidableEq

/-- `pd.to_numeric(..., errors='coerce')` on one cell: numbers stay,
booleans become 0/1, parsable strings become numbers, everything else
becomes missing. -/
def toNumericCell : Cell → Cell
  | .na => .na
  | .num q => .num q
  | .bool b => .num (if b then 1 else 0)
  | .str s =>
    match parsePyFloat s with
    | some q => .num q
    | none => .na
  | .date _ => .na

/-- `pd.to_datetime(..., errors='coerce')` on one cell, modelled up to
calendar semantics (no claim depends on them): strings of date shape parse,
other values coerce to missing; numbers are epoch stamps, kept abstractly
by their printed form. -/
def toDatetimeCell : Cell → Cell
  | .str s =>
    if isDateStr (String.mk (stripChars s.data)) then .date s else .na
  | .date s => .date s
  | .num q => .date (toString q)
  | _ => .na

/-- Leftmost match of the digits-dot-digits pattern used by
`split_column`'s numeric extraction. -/
def extractNumberChars : List Char → Option (List Char)
  | [] => none
  | c :: rest =>
    if c.isDigit then
      let ds := (c :: rest).takeWhile (fun d => d.isDigit)
      let after := (c :: rest).dropWhile (fun d => d.isDigit)
      match after with
      | '.' :: r2 => some (ds ++ ['.'] ++ r2.takeWhile (fun d => d.isDigit))
      | _ => some ds
    else extractNumberChars rest

/-- Leftmost run of letters, the text extraction of `split_column`. -/
def extractAlphaChars : List Char → Option (List Char)
  | [] => none
  | c :: rest =>
    if c.isAlpha then some ((c :: rest).takeWhile (fun d => d.isAlpha))
    else extractAlphaChars rest

/-- The body of one `apply_column_decisions` iteration, i.e. the code inside
its `try`: the conversion for one column.  `split_column` uses the pandas
`.str` accessor, which raises on a non-object column; that exception is the
per-column failure the surrounding handler absorbs. -/
def convertBody (name : String) (d : Decision) (t : Table) :
    Except String Table :=
  if d.action = "convert_to_numeric" then
    .ok (updateByName t name (fun c =>
      { c with dtype := .numeric, cells := c.cells.map toNumericCell }))
  else if d.action = "convert_to_date" then
    .ok (updateByName t name (fun c =>
      { c with dtype := .datetime, cells := c.cells.map toDatetimeCell }))
  else if d.action = "split_column" then
    match t.find? (fun c => c.name == name) with
    | none => .ok t
    | some c =>
      if c.dtype ≠ .object then
        .error "Can only use .str accessor with string values"
      else
        let numericPart := c.cells.map (fun x =>
          match x with
          | .str s =>
            match extractNumberChars s.data with
            | some l =>
              match parsePyFloat (String.mk l) with
              | some q => Cell.num q
              | none => Cell.na
            | none => Cell.na
          | _ => Cell.na)
        let textPart := c.cells.map (fun x =>
          match x with
          | .str s =>
            match extractAlphaChars s.data with
            | some l => Cell.str (String.mk l)
            | none => Cell.na
          | _ => Cell.na)
        let t1 := t ++
          [⟨name ++ "_numeric", .numeric, numericPart⟩,
           ⟨name ++ "_text", .object, textPart⟩]
        .ok (if d.drop_original then t1.filter (fun c2 => c2.name != name)
             else t1)
  else .ok t

/-- The audit entry each successful decision appends. -/
def decisionLog (name : String) (action : String) : List String :=
  if action = "convert_to_numeric" then
    ["Converted " ++ name ++ " to numeric type"]
  else if action = "convert_to_date" then
    ["Converted " ++ name ++ " to datetime type"]
  else if action = "split_column" then
    ["Split " ++ name ++ " into numeric and text components"]
  else if action = "keep_as_text" || action = "keep_as_categorical" then
    ["Kept " ++ name ++ " as " ++
      String.mk (action.data.map (fun ch => if ch = '_' then ' ' else ch))]
  else []

/-- One iteration of `apply_column_decisions`: skip absent columns silently,
run the conversion under the per-column exception handler — an error is
logged and the unit skipped, the table is left as it was. -/
def decisionStep (st : Table × List String) (p : String × Decision) :
    Table × List String :=
  if !(st.1.map (fun c => c.name)).contains p.1 then st
  else
    match convertBody p.1 p.2 st.1 with
    | .ok t2 => (t2, st.2 ++ decisionLog p.1 p.2.action)
    | .error e => (st.1, st.2 ++ ["Error processing " ++ p.1 ++ ": " ++ e])

/-- `DataProcessor.apply_column_decisions` (`app.py:166-206`). -/
def apply_column_decisions (decisions : List (String × Decision))
    (t : Table) (logs : List String) : Table × List String :=
  decisions.foldl decisionStep (t, logs)

/-! ### Configuration (`self.config`, accessed by key in the source;
a `none` section reproduces the `KeyError` of a missing key) -/

/-- The `imputation` section.  `method` is read with plain indexing in the
source (missing key raises); the other keys are read with `.get` defaults. -/
structure ImputationCfg where
  method : Option String
  delete_null_rows : Bool := false
  column_specific : List (String × String) := []
  knn_neighbors : Nat := 5
deriving Repr, DecidableEq

/-- The `outlier_detection` section. -/
structure OutlierDetectionCfg where
  enabled : Bool
  method : String := "zscore"
  threshold : ℚ := 3
  action : String := "flag"
deriving Repr, DecidableEq

/-- One custom rule. -/
structure Rule where
  column : String
  condition : String
  action : String
  value : String := ""
deriving Repr, DecidableEq

/-- The `rules` section. -/
structure RulesCfg where
  enabled : Bool
  custom_rules : List Rule := []
deriving Repr, DecidableEq

/-- The processing configuration; absent sections are `none`
(`schema_mapping` alone is read with a `.get` default in the source). -/
structure Config where
  imputation : Option ImputationCfg := none
  outlier_detection : Option OutlierDetectionCfg := none
  rules : Option RulesCfg := none
  schema_mapping : List (String × String) := []
deriving Repr, DecidableEq

/-! ### Missing values (`DataProcessor.handle_missing_values`, `app.py:560`) -/

/-- The sklearn `KNNImputer.fit_transform` call, an external dependency:
modelled as a function parameter taking the selected sub-table and the
neighbor count. -/
abbrev KnnBackend := List (String × List Cell) → Nat → List (String × List Cell)

/-- Fill the missing cells of a list with a fixed value (`fillna`). -/
def fillWith (cells : List Cell) (v : ℚ) : List Cell :=
  cells.map (fun c => if c.isNa then Cell.num v else c)

/-- `df[col].fillna(df[col].<stat>())`: a no-op when the column has no
present value (the statistic of an empty series is `NaN`, and `fillna(NaN)`
fills nothing). -/
def fillStat (stat : List ℚ → ℚ) (c : Column) : Column :=
  let p := presentNums c.cells
  if p = [] then c else { c with cells := fillWith c.cells (stat p) }

/-- The KNN candidate set: the target column plus every other numeric
column with strictly fewer missing values (`app.py:603-607`). -/
def knnCandidates (t : Table) (col : String) : List String :=
  col :: (numericNames t).filter
    (fun oc => oc != col && decide (colMissing t oc < colMissing t col))

/-- `self.df[knn_cols] = imputer.fit_transform(self.df[knn_cols])`:
run the backend on the selected columns and write its output back. -/
def applyKnnBackend (backend : KnnBackend) (t : Table) (cols : List String)
    (n : Nat) : Table :=
  let sub2 := backend (cols.map (fun nm => (nm, colCells t nm))) n
  t.map (fun c =>
    if cols.contains c.name then
      match sub2.find? (fun p => p.1 == c.name) with
      | some p => { c with cells := p.2 }
      | none => c
    else c)

/-- Per-column method resolution: the `column_specific` override when
present and truthy, else the global `method` key (whose absence raises). -/
def effectiveMethod (imp : ImputationCfg) (col : String) :
    Except String String :=
  match imp.column_specific.find? (fun p => p.1 == col) with
  | some p =>
    if p.2 ≠ "" then .ok p.2
    else match imp.method with
      | some m => .ok m
      | none => .error "KeyError: 'method'"
  | none =>
    match imp.method with
    | some m => .ok m
    | none => .error "KeyError: 'method'"

/-- One iteration of the `handle_missing_values` per-column loop
(`app.py:584-625`): resolve the method first (the source reads the config
before testing the missing count), then impute if the column has missing
values. -/
def imputeColumn (imp : ImputationCfg) (backend : KnnBackend)
    (st : Table × List String) (col : String) :
    Except String (Table × List String) := do
  let method ← effectiveMethod imp col
  let t := st.1
  if 0 < colMissing t col then
    if method = "mean" then
      .ok (updateByName t col (fillStat meanQ),
           st.2 ++ ["Imputed " ++ col ++ " with mean"])
    else if method = "median" then
      .ok (updateByName t col (fillStat medianQ),
           st.2 ++ ["Imputed " ++ col ++ " with median"])
    else if method = "knn" then
      let knnCols := knnCandidates t col
      if 1 < knnCols.length then
        let n := min imp.knn_neighbors (completeRowCountOn t knnCols)
        if 0 < n then
          .ok (applyKnnBackend backend t knnCols n,
               st.2 ++ ["Applied KNN imputation to " ++ col ++ " with " ++
                 toString n ++ " neighbors"])
        else
          .ok (updateByName t col (fillStat meanQ),
               st.2 ++ ["Fallback: Imputed " ++ col ++ " with mean"])
      else
        .ok (updateByName t col (fillStat meanQ),
             st.2 ++ ["Fallback: Imputed " ++ col ++ " with mean"])
    else .ok st
  else .ok st

/-- `DataProcessor.handle_missing_values` (`app.py:560-628`).  Returns the
per-column missing counts before and after, the new table, and the audit
log (timestamps abstracted away). -/
def handle_missing_values (cfg : Config) (backend : KnnBackend) (t : Table)
    (logs : List String) :
    Except String
      (List (String × Nat) × List (String × Nat) × Table × List String) := do
  let logs1 := logs ++ ["Starting missing value imputation"]
  let imp ← match cfg.imputation with
    | some i => Except.ok i
    | none => Except.error "KeyError: 'imputation'"
  let before := missingCounts t
  if imp.delete_null_rows then
    let t2 := dropNaRows t
    return (before, missingCounts t2, t2,
      logs1 ++ ["Deleted " ++ toString (rowCount t - rowCount t2) ++
        " rows containing null values"])
  else
    let ncols := numericNames t
    if ncols.isEmpty then
      return (before, missingCounts t, t,
        logs1 ++ ["No numeric columns found for imputation"])
    else
      let st ← ncols.foldlM (imputeColumn imp backend) (t, logs1)
      return (before, missingCounts st.1, st.1, st.2)

/-! ### Outliers (`DataProcessor.detect_outliers`, `app.py:1031`) -/

/-- One zscore test, square-root-free: the float comparison
`|x − μ| / sqrt(var) > τ` over the population variance is equivalent to
`var > 0 ∧ (τ < 0 ∨ (x − μ)² > τ²·var)` (a zero variance makes every
z-score NaN, which never exceeds the threshold). -/
def zOutlier (x μ v τ : ℚ) : Bool :=
  decide (0 < v) && (decide (τ < 0) || decide ((x - μ) ^ 2 > τ ^ 2 * v))

/-- The per-column outlier mask of `app.py:1046-1061`: over the column's
present values, `zscore` marks large standardised scores and `iqr` marks
values outside `[Q1 − τ·IQR, Q3 + τ·IQR]`; missing cells are never
marked (z-scores are computed on `dropna()` and mapped back; NaN
comparisons are false). -/
def colOutlierMask (method : String) (τ : ℚ) (cells : List Cell) :
    List Bool :=
  if method = "zscore" then
    let p := presentNums cells
    cells.map (fun c =>
      match c with
      | .num x => zOutlier x (meanQ p) (varQ p) τ
      | _ => false)
  else if method = "iqr" then
    let p := presentNums cells
    if p = [] then cells.map (fun _ => false)
    else
      let q1 := quantileQ p (1/4)
      let q3 := quantileQ p (3/4)
      let lo := q1 - τ * (q3 - q1)
      let hi := q3 + τ * (q3 - q1)
      cells.map (fun c =>
        match c with
        | .num x => decide (x < lo) || decide (x > hi)
        | _ => false)
  else cells.map (fun _ => false)

/-- Pointwise disjunction of two row masks. -/
def orMasks (a b : List Bool) : List Bool :=
  (a.zip b).map (fun p => p.1 || p.2)

/-- `DataProcessor.detect_outliers` (`app.py:1031-1073`). -/
def detect_outliers (cfg : Config) (t : Table) (logs : List String) :
    Except String (Nat × Table × List String) := do
  let oc ← match cfg.outlier_detection with
    | some c => Except.ok c
    | none => Except.error "KeyError: 'outlier_detection'"
  if !oc.enabled then
    return (0, t, logs)
  else
    let logs1 := logs ++ ["Starting outlier detection"]
    let mask := (numericNames t).foldl
      (fun m n => orMasks m (colOutlierMask oc.method oc.threshold (colCells t n)))
      ((List.range (rowCount t)).map (fun _ => false))
    let cnt := (mask.filter id).length
    if 0 < cnt then
      if oc.action = "remove" then
        return (cnt,
          t.map (fun c =>
            { c with cells := filterMask (mask.map (fun b => !b)) c.cells }),
          logs1 ++ ["Removed " ++ toString cnt ++ " outlier rows using " ++
            oc.method ++ " method"])
      else
        return (cnt, t ++ [⟨"_outlier_flag", .boolean, mask.map Cell.bool⟩],
          logs1 ++ ["Flagged " ++ toString cnt ++ " outlier rows using " ++
            oc.method ++ " method"])
    else
      return (cnt, t, logs1)

/-! ### Rules (`DataProcessor.apply_rules`, `app.py:1075`) -/

/-- Numeric comparison of one cell against a parsed float
(`df[col] > float(value)`); a string-valued cell makes the vectorised
comparison raise `TypeError`, missing compares false, booleans compare as
0/1. -/
def cellCmpNum (gt : Bool) (v : ℚ) (c : Cell) : Except String Bool :=
  match c with
  | .num q => .ok (if gt then decide (q > v) else decide (q < v))
  | .bool b =>
    .ok (if gt then decide ((if b then (1:ℚ) else 0) > v)
         else decide ((if b then (1:ℚ) else 0) < v))
  | .na => .ok false
  | _ => .error "TypeError: '>' not supported between str and float"

/-- Build the boolean mask of one rule (`app.py:1093-1111`), the part of
the loop body that can raise.  `contains` is modelled as plain substring
containment (`astype(str)` turns a missing cell into the literal string
"nan" first). -/
def ruleMask (r : Rule) (t : Table) : Except String (List Bool) :=
  let cells := colCells t r.column
  if r.condition = "greater_than" then
    match parsePyFloat r.value with
    | some v => cells.mapM (cellCmpNum true v)
    | none => .error ("could not convert string to float: " ++ r.value)
  else if r.condition = "less_than" then
    match parsePyFloat r.value with
    | some v => cells.mapM (cellCmpNum false v)
    | none => .error ("could not convert string to float: " ++ r.value)
  else if r.condition = "equals" then
    .ok (cells.map (fun c =>
      match c with | .str s => s == r.value | _ => false))
  else if r.condition = "not_equals" then
    .ok (cells.map (fun c =>
      match c with | .str s => !(s == r.value) | _ => true))
  else if r.condition = "contains" then
    .ok (cells.map (fun c => containsSub r.value.data (cellToString c).data))
  else if r.condition = "not_contains" then
    .ok (cells.map (fun c => !(containsSub r.value.data (cellToString c).data)))
  else if r.condition = "is_null" then
    .ok (cells.map (fun c => c.isNa))
  else if r.condition = "is_not_null" then
    .ok (cells.map (fun c => !c.isNa))
  else
    .ok (cells.map (fun _ => false))

/-- One iteration of the `apply_rules` loop: skip absent columns, evaluate
the mask under the per-rule exception handler (an error is logged and the
rule skipped), and apply `remove`/`flag` when at least one row matched. -/
def ruleStep (st : Nat × Table × List String) (r : Rule) :
    Nat × Table × List String :=
  let cnt := st.1
  let t := st.2.1
  let logs := st.2.2
  if !(t.map (fun c => c.name)).contains r.column then st
  else
    match ruleMask r t with
    | .error e =>
      (cnt, t, logs ++ ["Rule error for " ++ r.column ++ " " ++ r.condition ++
        " " ++ r.value ++ ": " ++ e])
    | .ok mask =>
      let affected := (mask.filter id).length
      if 0 < affected then
        if r.action = "remove" then
          (cnt + 1,
           t.map (fun c =>
             { c with cells := filterMask (mask.map (fun b => !b)) c.cells }),
           logs ++ ["Rule: Removed " ++ toString affected ++ " rows where " ++
             r.column ++ " " ++ r.condition ++ " " ++ r.value])
        else if r.action = "flag" then
          (cnt + 1,
           t ++ [⟨"_rule_flag_" ++ r.column ++ "_" ++ r.condition, .boolean,
             mask.map Cell.bool⟩],
           logs ++ ["Rule: Flagged " ++ toString affected ++ " rows where " ++
             r.column ++ " " ++ r.condition ++ " " ++ r.value])
        else (cnt + 1, t, logs)
      else (cnt, t, logs)

/-- `DataProcessor.apply_rules` (`app.py:1075-1128`). -/
def apply_rules (cfg : Config) (t : Table) (logs : List String) :
    Except String (Nat × Table × List String) := do
  let rc ← match cfg.rules with
    | some c => Except.ok c
    | none => Except.error "KeyError: 'rules'"
  if !rc.enabled then
    return (0, t, logs)
  else
    return rc.custom_rules.foldl ruleStep (0, t, logs ++ ["Applying custom rules"])

/-! ### Pipeline (`DataProcessor.process`, `app.py:1154-1188`) -/

/-- The summary dictionary returned by `process`. -/
structure Summary where
  rows_original : Nat
  rows_cleaned : Nat
  columns : Nat
  missing_values_before : List (String × Nat)
  missing_values_after : List (String × Nat)
  outliers_detected : Nat
  rules_applied : Nat
deriving Repr, DecidableEq

/-- `DataProcessor.process` (`app.py:1154-1188`): schema mapping, then
missing values, outliers and rules on the table left by the previous stage;
returns the summary, the cleaned table (`self.df`) and the audit trail. -/
def process (cfg : Config) (backend : KnnBackend) (t : Table) :
    Except String (Summary × Table × List String) := do
  let st1 := apply_schema_mapping cfg.schema_mapping t ["Started processing"]
  let r2 ← handle_missing_values cfg backend st1.1 st1.2
  let r3 ← detect_outliers cfg r2.2.2.1 r2.2.2.2
  let r4 ← apply_rules cfg r3.2.1 r3.2.2
  return ({ rows_original := rowCount t
            rows_cleaned := rowCount r4.2.1
            columns := r4.2.1.length
            missing_values_before := r2.1.filter (fun p => 0 < p.2)
            missing_values_after := r2.2.1.filter (fun p => 0 < p.2)
            outliers_detected := r3.1
            rules_applied := r4.1 },
          r4.2.1, r4.2.2 ++ ["Processing complete"])

end StatEz.App

namespace StatEz.DProc

open StatEz

/-! ### `src/backend/data_processor.py` (`DataProcessor.detect_outliers`) -/

/-- The `outliers` configuration section of the alternate processor.
`method` defaults to `"iqr"` and `action` to `"cap"` (`.get` defaults);
an absent or empty section (`if not cfg`) skips the stage entirely and is
modelled as `none`. -/
structure OutlierCfg where
  method : String := "iqr"
  action : String := "cap"
deriving Repr, DecidableEq

/-- The IQR bounds `[Q1 − 1.5·IQR, Q3 + 1.5·IQR]` of one column's present
values; `none` when the column has no present value (all quantiles are
then `NaN` and every comparison against them is false). -/
def iqrBoundsOf (cells : List Cell) : Option (ℚ × ℚ) :=
  let p := presentNums cells
  if p = [] then none
  else
    let q1 := quantileQ p (1/4)
    let q3 := quantileQ p (3/4)
    some (q1 - 3/2 * (q3 - q1), q3 + 3/2 * (q3 - q1))

/-- The two `np.where` cap steps of `data_processor.py:153-154`: first
raise the values below the lower bound, then lower the values above the
upper bound; missing cells compare false and stay missing. -/
def capCell (lo hi : ℚ) : Cell → Cell
  | .num q =>
    let r1 := if q < lo then lo else q
    .num (if r1 > hi then hi else r1)
  | c => c

/-- Cap one column to its own IQR bounds. -/
def capColumn (c : Column) : Column :=
  match iqrBoundsOf c.cells with
  | none => c
  | some b => { c with cells := c.cells.map (capCell b.1 b.2) }

/-- The `remove` branch of one loop iteration: keep the rows whose value in
column `n` is missing or inside the bounds (`data_processor.py:150`). -/
def removeRowsFor (t : Table) (n : String) : Table :=
  match iqrBoundsOf (colCells t n) with
  | none => t
  | some b =>
    let keep := (colCells t n).map (fun c =>
      match c with
      | .na => true
      | .num q => decide (b.1 ≤ q) && decide (q ≤ b.2)
      | _ => false)
    t.map (fun c => { c with cells := filterMask keep c.cells })

/-- `DataProcessor.detect_outliers` (`data_processor.py:129-159`): for the
`iqr` method, walk the numeric columns computing each column's quantile
bounds from the table state at its turn, then remove rows or cap values
per the configured action. -/
def detect_outliers (cfg : Option OutlierCfg) (t : Table) : Table :=
  match cfg with
  | none => t
  | some oc =>
    if oc.method = "iqr" then
      (numericNames t).foldl (fun acc n =>
        if oc.action = "remove" then removeRowsFor acc n
        else if oc.action = "cap" then updateByName acc n capColumn
        else acc) t
    else t

end StatEz.DProc

namespace StatEz

open StatEz.App

/-! ### Generic evaluation and fold lemmas -/

theorem exceptBind_ok {α β : Type} (a : α) (f : α → Except String β) :
    (Except.ok a >>= f) = f a := rfl

theorem exceptBind_error {α β : Type} (e : String) (f : α → Except String β) :
    ((Except.error e : Except String α) >>= f) = Except.error e := rfl

theorem exceptPure_eq_ok {α : Type} (a : α) :
    (pure a : Except String α) = Except.ok a := rfl

/-- A monadic fold whose steps all succeed is the corresponding pure fold. -/
theorem foldlM_ok_of_ok {α β : Type} (f : α → β → Except String α)
    (g : α → β → α) :
    ∀ (l : List β) (s : α), (∀ s2 b, b ∈ l → f s2 b = .ok (g s2 b)) →
      l.foldlM f s = .ok (l.foldl g s) := by
  intro l
  induction l with
  | nil => intro s _; rfl
  | cons b l ih =>
    intro s h
    rw [List.foldlM_cons, h s b (by simp), exceptBind_ok, List.foldl_cons]
    exact ih (g s b) (fun s2 b2 hb2 => h s2 b2 (by simp [hb2]))

/-- A monadic fold whose steps all return their state unchanged. -/
theorem foldlM_ok_id {α β : Type} (f : α → β → Except String α) :
    ∀ (l : List β) (s : α), (∀ s2 b, b ∈ l → f s2 b = .ok s2) →
      l.foldlM f s = .ok s := by
  intro l s h
  have := foldlM_ok_of_ok f (fun s2 _ => s2) l s h
  simpa [List.foldl_fixed] using this

/-- Project the first component out of a paired fold whose first component
evolves independently. -/
theorem foldl_fst {α β γ : Type} (g : α × β → γ → α × β) (gT : α → γ → α)
    (h : ∀ s c, (g s c).1 = gT s.1 c) :
    ∀ (l : List γ) (s : α × β), (l.foldl g s).1 = l.foldl gT s.1 := by
  intro l
  induction l with
  | nil => intro s; rfl
  | cons c l ih => intro s; rw [List.foldl_cons, List.foldl_cons, ih, h]

/-! ### Table lemmas -/

theorem updateByName_length (t : Table) (n : String) (g : Column → Column) :
    (updateByName t n g).length = t.length := by
  simp [updateByName]

theorem updateByName_getElem? (t : Table) (n : String) (g : Column → Column)
    (i : ℕ) (hi : i < t.length) :
    (updateByName t n g)[i]? =
      some (if (t.get ⟨i, hi⟩).name = n then g (t.get ⟨i, hi⟩)
            else t.get ⟨i, hi⟩) := by
  simp [updateByName, List.getElem?_map, List.getElem?_eq_getElem hi,
    List.get_eq_getElem]

theorem updateByName_map_name (t : Table) (n : String) (g : Column → Column)
    (hg : ∀ c, (g c).name = c.name) :
    (updateByName t n g).map Column.name = t.map Column.name := by
  simp only [updateByName, List.map_map]
  refine List.map_congr_left (fun c _ => ?_)
  by_cases h : c.name = n <;> simp [h, hg]

theorem getElem?_eq_some_get (l : List α) (j : ℕ) (hj : j < l.length) :
    l[j]? = some (l.get ⟨j, hj⟩) := by
  rw [List.getElem?_eq_getElem hj, List.get_eq_getElem]

/-- With unique column names, looking a column up by its own name returns
its cells. -/
theorem colCells_mem (t : Table) (hnd : (t.map Column.name).Nodup) :
    ∀ c ∈ t, colCells t c.name = c.cells := by
  induction t with
  | nil => intro c hc; cases hc
  | cons a rest ih =>
    intro c hc
    rcases List.mem_cons.mp hc with h | h
    · subst h
      simp [colCells, List.find?_cons_of_pos]
    · have hname : c.name ∈ rest.map Column.name := List.mem_map.mpr ⟨c, h, rfl⟩
      have hne : ¬ a.name = c.name := by
        intro he
        exact (List.nodup_cons.mp hnd).1 (he ▸ hname)
      have ih2 := ih (List.nodup_cons.mp hnd).2 c h
      simp only [colCells] at ih2 ⊢
      rw [List.find?_cons_of_neg _ (by simp [hne])]
      exact ih2

/-- Names of a table position, read off the name list. -/
theorem name_get_of_map_eq {t1 t : Table}
    (h : t1.map Column.name = t.map Column.name) (i : ℕ)
    (hi : i < t.length) (hi1 : i < t1.length) :
    (t1.get ⟨i, hi1⟩).name = (t.get ⟨i, hi⟩).name := by
  have h2 := congrArg (fun l => l[i]?) h
  simp only [List.getElem?_map, List.getElem?_eq_getElem hi,
    List.getElem?_eq_getElem hi1, Option.map_some] at h2
  exact Option.some.inj h2

/-- Master lemma: folding a per-name table update over a duplicate-free name
list rewrites each column whose name occurs in the list by `F`, and leaves
the other columns untouched. -/
theorem foldl_step_getElem (step : Table → String → Table)
    (F : Column → Column)
    (hlen : ∀ acc n, (step acc n).length = acc.length)
    (hnames : ∀ acc n, (acc.map Column.name).Nodup →
      (step acc n).map Column.name = acc.map Column.name)
    (hother : ∀ acc n (i : ℕ) (hi : i < acc.length),
      (acc.get ⟨i, hi⟩).name ≠ n → (step acc n)[i]? = some (acc.get ⟨i, hi⟩))
    (hself : ∀ acc n (i : ℕ) (hi : i < acc.length),
      (acc.map Column.name).Nodup → (acc.get ⟨i, hi⟩).name = n →
      (step acc n)[i]? = some (F (acc.get ⟨i, hi⟩))) :
    ∀ (names : List String) (t : Table), names.Nodup →
      (t.map Column.name).Nodup → ∀ (i : ℕ) (hi : i < t.length),
      (names.foldl step t)[i]? =
        some (if (t.get ⟨i, hi⟩).name ∈ names then F (t.get ⟨i, hi⟩)
              else t.get ⟨i, hi⟩) := by
  intro names
  induction names with
  | nil =>
    intro t _ _ i hi
    simp [List.getElem?_eq_getElem hi, List.get_eq_getElem]
  | cons n ns ih =>
    intro t hns hnd i hi
    have hi1 : i < (step t n).length := by rw [hlen]; exact hi
    have hmapeq := hnames t n hnd
    have hnd1 : ((step t n).map Column.name).Nodup := by rw [hmapeq]; exact hnd
    have hnameeq := name_get_of_map_eq hmapeq i hi hi1
    rw [List.foldl_cons]
    by_cases hn : (t.get ⟨i, hi⟩).name = n
    · have h1 : (step t n)[i]? = some (F (t.get ⟨i, hi⟩)) :=
        hself t n i hi hnd hn
      have h2 : (step t n).get ⟨i, hi1⟩ = F (t.get ⟨i, hi⟩) := by
        have := List.getElem?_eq_getElem hi1
        rw [this] at h1
        exact Option.some.inj h1
      have h3 := ih (step t n) (List.nodup_cons.mp hns).2 hnd1 i hi1
      rw [h3, h2]
      have hn1 : n ∉ ns := (List.nodup_cons.mp hns).1
      have hfname : (F (t.get ⟨i, hi⟩)).name = (t.get ⟨i, hi⟩).name := by
        rw [← h2]; exact hnameeq
      simp only [List.get_eq_getElem] at hfname hn ⊢
      simp [hfname, hn, hn1]
    · have h1 : (step t n)[i]? = some (t.get ⟨i, hi⟩) := hother t n i hi hn
      have h2 : (step t n).get ⟨i, hi1⟩ = t.get ⟨i, hi⟩ := by
        have := List.getElem?_eq_getElem hi1
        rw [this] at h1
        exact Option.some.inj h1
      have h3 := ih (step t n) (List.nodup_cons.mp hns).2 hnd1 i hi1
      rw [h3, h2]
      simp only [List.get_eq_getElem] at hn ⊢
      by_cases hmem : (t[i]:Column).name ∈ ns <;> simp [hmem, hn, List.mem_cons]

/-- The numeric-column names inherit freedom from duplicates. -/
theorem numericNames_nodup (t : Table) (hnd : (t.map Column.name).Nodup) :
    (numericNames t).Nodup := by
  have hsub : List.Sublist
      ((t.filter (fun c => c.dtype = DType.numeric)).map Column.name)
      (t.map Column.name) :=
    (List.filter_sublist t).map Column.name
  exact hnd.sublist hsub

theorem mem_numericNames (t : Table) (i : ℕ) (hi : i < t.length)
    (h : (t.get ⟨i, hi⟩).dtype = DType.numeric) :
    (t.get ⟨i, hi⟩).name ∈ numericNames t := by
  refine List.mem_map.mpr ⟨t.get ⟨i, hi⟩,
    List.mem_filter.mpr ⟨List.get_mem t i hi, ?_⟩, rfl⟩
  simpa [List.get_eq_getElem] using h

theorem not_mem_numericNames (t : Table) (hnd : (t.map Column.name).Nodup)
    (i : ℕ) (hi : i < t.length)
    (h : (t.get ⟨i, hi⟩).dtype ≠ DType.numeric) :
    (t.get ⟨i, hi⟩).name ∉ numericNames t := by
  intro hmem
  rcases List.mem_map.mp hmem with ⟨c, hc, hname⟩
  have hct : c ∈ t := (List.mem_filter.mp hc).1
  have hcn : c.dtype = DType.numeric := by
    have := (List.mem_filter.mp hc).2
    simpa using this
  have : c = t.get ⟨i, hi⟩ :=
    List.inj_on_of_nodup_map hnd hct (List.get_mem t i hi) hname
  exact h (this ▸ hcn)

end StatEz

namespace StatEz

open StatEz.App

/-! ### Helper lemmas for the analyzer claims -/

/-- Every bucket list splits exactly into its four filters. -/
theorem bucket_filter_sum (l : List Bucket) :
    (l.filter (fun b => b = Bucket.numeric)).length +
      (l.filter (fun b => b = Bucket.text)).length +
      (l.filter (fun b => b = Bucket.date)).length +
      (l.filter (fun b => b = Bucket.mixedAl)).length = l.length := by
  induction l with
  | nil => rfl
  | cons b l ih => cases b <;> simp [List.filter_cons] <;> omega

/-! ### C1 -/

/-- C1 (code bug): `apply_schema_mapping` checks candidate names only
against the original column list, never against the renames already chosen
in the same pass.  On the spec's own example — mapping colA and colB both
to "numeric" over a table already containing a column "numeric" — both
columns are renamed to "numeric_1", so the resulting column names collide
instead of being "numeric_1"/"numeric_2" as the claim states. -/
theorem c1_schema_mapping_collision :
    ((App.apply_schema_mapping [("colA", "numeric"), ("colB", "numeric")]
        [⟨"colA", .object, []⟩, ⟨"colB", .object, []⟩,
         ⟨"numeric", .numeric, []⟩] []).1.map Column.name) =
      ["numeric_1", "numeric_1", "numeric"] ∧
    ¬ ((App.apply_schema_mapping [("colA", "numeric"), ("colB", "numeric")]
        [⟨"colA", .object, []⟩, ⟨"colB", .object, []⟩,
         ⟨"numeric", .numeric, []⟩] []).1.map Column.name).Nodup := by
  decide

/-! ### C10 -/

/-- C10: `analyze_mixed_column` classifies every sampled value into exactly
one of the four buckets, so on any non-empty sample each of the four
ratios lies in [0, 1] and they sum to exactly 1. -/
theorem c10_ratio_partition (cd : List Cell) (nm : String) (a : App.Analysis)
    (h : App.analyze_mixed_column cd nm = some a) :
    a.numeric_ratio + a.text_ratio + a.date_ratio + a.mixed_ratio = 1 ∧
    (0 ≤ a.numeric_ratio ∧ a.numeric_ratio ≤ 1) ∧
    (0 ≤ a.text_ratio ∧ a.text_ratio ≤ 1) ∧
    (0 ≤ a.date_ratio ∧ a.date_ratio ≤ 1) ∧
    (0 ≤ a.mixed_ratio ∧ a.mixed_ratio ≤ 1) := by
  simp only [App.analyze_mixed_column] at h
  split at h
  · cases h
  · rename_i h0
    have h2 := Option.some.inj h
    subst h2
    dsimp only
    set L := ((nonNa cd).take 20).map cellToString with hL
    set B := L.map classify with hB
    have hBL : B.length = L.length := by rw [hB, List.length_map]
    have hsum := bucket_filter_sum B
    have hT : 0 < L.length := Nat.pos_of_ne_zero h0
    have hTQ : (L.length : ℚ) ≠ 0 := by exact_mod_cast h0
    constructor
    · rw [div_add_div_same, div_add_div_same, div_add_div_same]
      rw [div_eq_one_iff_eq hTQ]
      rw [hBL] at hsum
      exact_mod_cast hsum
    · refine ⟨⟨?_, ?_⟩, ⟨?_, ?_⟩, ⟨?_, ?_⟩, ⟨?_, ?_⟩⟩ <;>
        first
          | positivity
          | (rw [div_le_one (by positivity)]
             exact_mod_cast le_trans (List.length_filter_le _ _) (le_of_eq hBL))

/-- C10 witness: a concrete one-value sample. -/
theorem c10_ratio_partition_witness :
    ((1 : ℚ) + 0 + 0 + 0 = 1) := by
  have h7 : App.analyze_mixed_column [Cell.str "7"] "c" =
      some { column_name := "c", sample_values := ["7"], numeric_ratio := 1,
             text_ratio := 0, date_ratio := 0, mixed_ratio := 0,
             suggestions := [App.Suggestion.mk "convert_to_numeric" "high",
               App.Suggestion.mk "keep_as_text" "safe"] } := by
    have hc : classify "7" = Bucket.numeric := by decide
    norm_num [App.analyze_mixed_column, nonNa, Cell.isNa, cellToString, hc,
      List.filter_cons,
      (by decide : ¬ (Bucket.numeric = Bucket.text)),
      (by decide : ¬ (Bucket.numeric = Bucket.date)),
      (by decide : ¬ (Bucket.numeric = Bucket.mixedAl))]
  have h := c10_ratio_partition [Cell.str "7"] "c" _ h7
  exact h.1

/-! ### C3 -/

/-- C3: on every non-empty sample the analyzer always suggests
keep_as_text (confidence safe); it suggests convert_to_numeric (high)
whenever numeric_ratio > 0.8, convert_to_date (high) whenever
date_ratio > 0.6, keep_as_categorical (medium) whenever mixed_ratio > 0.7,
and split_column (medium) whenever both the mixed-alphanumeric and numeric
counts are positive — all thresholds independently; on an empty sample it
returns null. -/
theorem c3_suggestions :
    (∀ (cd : List Cell) (nm : String) (a : App.Analysis),
      App.analyze_mixed_column cd nm = some a →
      App.Suggestion.mk "keep_as_text" "safe" ∈ a.suggestions ∧
      (a.numeric_ratio > 4/5 →
        App.Suggestion.mk "convert_to_numeric" "high" ∈ a.suggestions) ∧
      (a.date_ratio > 3/5 →
        App.Suggestion.mk "convert_to_date" "high" ∈ a.suggestions) ∧
      (a.mixed_ratio > 7/10 →
        App.Suggestion.mk "keep_as_categorical" "medium" ∈ a.suggestions) ∧
      (0 < a.mixed_ratio → 0 < a.numeric_ratio →
        App.Suggestion.mk "split_column" "medium" ∈ a.suggestions)) ∧
    (∀ (cd : List Cell) (nm : String), nonNa cd = [] →
      App.analyze_mixed_column cd nm = none) := by
  constructor
  · intro cd nm a h
    simp only [App.analyze_mixed_column] at h
    split at h
    · cases h
    · rename_i h0
      have h2 := Option.some.inj h
      subst h2
      dsimp only
      refine ⟨?_, ?_, ?_, ?_, ?_⟩
      · exact List.mem_append_left _
          (List.mem_append_right _ (List.mem_singleton_self _))
      · intro hcond
        refine List.mem_append_left _ (List.mem_append_left _
          (List.mem_append_left _ (List.mem_append_left _ ?_)))
        rw [if_pos hcond]
        exact List.mem_singleton_self _
      · intro hcond
        refine List.mem_append_left _ (List.mem_append_left _
          (List.mem_append_left _ (List.mem_append_right _ ?_)))
        rw [if_pos hcond]
        exact List.mem_singleton_self _
      · intro hcond
        refine List.mem_append_left _ (List.mem_append_left _
          (List.mem_append_right _ ?_))
        rw [if_pos hcond]
        exact List.mem_singleton_self _
      · intro hm hn
        have hm2 : 0 < (((((nonNa cd).take 20).map cellToString).map
            classify).filter (fun b => b = Bucket.mixedAl)).length := by
          by_contra hc
          rw [Nat.eq_zero_of_not_pos hc] at hm
          simp at hm
        have hn2 : 0 < (((((nonNa cd).take 20).map cellToString).map
            classify).filter (fun b => b = Bucket.numeric)).length := by
          by_contra hc
          rw [Nat.eq_zero_of_not_pos hc] at hn
          simp at hn
        refine List.mem_append_right _ ?_
        rw [if_pos (And.intro hm2 hn2)]
        exact List.mem_singleton_self _
  · intro cd nm h
    simp [App.analyze_mixed_column, h]

/-- C3 witness: an all-numeric sample triggers convert_to_numeric and the
mandatory keep_as_text, and an all-missing column yields null. -/
theorem c3_suggestions_witness :
    App.Suggestion.mk "keep_as_text" "safe" ∈
      [App.Suggestion.mk "convert_to_numeric" "high",
       App.Suggestion.mk "keep_as_text" "safe"] ∧
    App.Suggestion.mk "convert_to_numeric" "high" ∈
      [App.Suggestion.mk "convert_to_numeric" "high",
       App.Suggestion.mk "keep_as_text" "safe"] ∧
    App.analyze_mixed_column [Cell.na] "c" = none := by
  have h7 : App.analyze_mixed_column [Cell.str "7"] "c" =
      some { column_name := "c", sample_values := ["7"], numeric_ratio := 1,
             text_ratio := 0, date_ratio := 0, mixed_ratio := 0,
             suggestions := [App.Suggestion.mk "convert_to_numeric" "high",
               App.Suggestion.mk "keep_as_text" "safe"] } := by
    have hc : classify "7" = Bucket.numeric := by decide
    norm_num [App.analyze_mixed_column, nonNa, Cell.isNa, cellToString, hc,
      List.filter_cons,
      (by decide : ¬ (Bucket.numeric = Bucket.text)),
      (by decide : ¬ (Bucket.numeric = Bucket.date)),
      (by decide : ¬ (Bucket.numeric = Bucket.mixedAl))]
  have h := c3_suggestions
  have hk := (h.1 [Cell.str "7"] "c" _ h7).1
  have hn := (h.1 [Cell.str "7"] "c" _ h7).2.1 (by norm_num)
  exact ⟨hk, hn, h.2 [Cell.na] "c" rfl⟩


/-! ### C4 -/

/-- The analyzer reports the column name it was given. -/
theorem analyze_column_name (cd : List Cell) (nm : String) (a : App.Analysis)
    (h : App.analyze_mixed_column cd nm = some a) : a.column_name = nm := by
  simp only [App.analyze_mixed_column] at h
  split at h
  · cases h
  · have h2 := Option.some.inj h
    subst h2
    rfl

/-- C4: `detect_mixed_columns` reports an object-dtype column as mixed if
and only if it has at least one non-missing value and the analyzer returned
more than one suggestion (i.e. some confidence-scored heuristic fired
beyond the mandatory keep_as_text); a table with no such column yields the
empty list. -/
theorem c4_detect_mixed_iff :
    (∀ (t : Table) (col : Column), (t.map Column.name).Nodup → col ∈ t →
      ((∃ a ∈ App.detect_mixed_columns t, a.column_name = col.name) ↔
        (col.dtype = DType.object ∧ nonNa col.cells ≠ [] ∧
          ∃ a, App.analyze_mixed_column ((nonNa col.cells).take 50) col.name =
              some a ∧ 1 < a.suggestions.length))) ∧
    (∀ t : Table, (∀ col ∈ t, ¬ (col.dtype = DType.object ∧
        nonNa col.cells ≠ [] ∧
        ∃ a, App.analyze_mixed_column ((nonNa col.cells).take 50) col.name =
            some a ∧ 1 < a.suggestions.length)) →
      App.detect_mixed_columns t = []) := by
  constructor
  · intro t col hnd hcol
    constructor
    · rintro ⟨a, ha, hname⟩
      rcases List.mem_filterMap.mp ha with ⟨c, hc, hFc⟩
      dsimp only at hFc
      split at hFc
      · rename_i hdt
        split at hFc
        · rename_i hlen
          split at hFc
          · rename_i a2 han
            split at hFc
            · rename_i hgt
              obtain rfl : a2 = a := Option.some.inj hFc
              have hcname : a2.column_name = c.name :=
                analyze_column_name _ _ _ han
              have hceq : c.name = col.name := by rw [← hcname, hname]
              have hccol : c = col :=
                List.inj_on_of_nodup_map hnd hc hcol hceq
              subst hccol
              refine ⟨hdt, ?_, a2, han, hgt⟩
              intro hnil
              rw [hnil] at hlen
              simp at hlen
            · cases hFc
          · cases hFc
        · cases hFc
      · cases hFc
    · rintro ⟨hdt, hne, a, hana, hgt⟩
      refine ⟨a, List.mem_filterMap.mpr ⟨col, hcol, ?_⟩,
        analyze_column_name _ _ _ hana⟩
      have hlen : 0 < ((nonNa col.cells).take 50).length := by
        rw [List.length_take]
        have : 0 < (nonNa col.cells).length := List.length_pos.mpr hne
        omega
      dsimp only
      rw [if_pos hdt, if_pos hlen, hana]
      show (if 1 < a.suggestions.length then some a else none) = some a
      rw [if_pos hgt]
  · intro t hno
    refine List.filterMap_eq_nil_iff.mpr (fun c hc => ?_)
    dsimp only
    by_cases hdt : c.dtype = DType.object
    · rw [if_pos hdt]
      by_cases hlen : 0 < ((nonNa c.cells).take 50).length
      · rw [if_pos hlen]
        cases han : App.analyze_mixed_column ((nonNa c.cells).take 50) c.name
          with
        | none => rfl
        | some a =>
          have hne : nonNa c.cells ≠ [] := by
            intro hnil
            rw [hnil] at hlen
            simp at hlen
          have hngt : ¬ 1 < a.suggestions.length := by
            intro hgt
            exact hno c hc ⟨hdt, hne, a, han, hgt⟩
          show (if 1 < a.suggestions.length then some a else none) = none
          rw [if_neg hngt]
      · rw [if_neg hlen]
    · rw [if_neg hdt]

/-- C4 witness: a genuinely mixed object column is reported, and a table
with only a numeric column yields the empty list. -/
theorem c4_detect_mixed_iff_witness :
    ((∃ a ∈ App.detect_mixed_columns
        [⟨"m", DType.object, [Cell.str "1", Cell.str "2", Cell.str "A1"]⟩,
         ⟨"x", DType.numeric, [Cell.num 1]⟩],
        a.column_name = "m") ↔
      ((⟨"m", DType.object, [Cell.str "1", Cell.str "2", Cell.str "A1"]⟩ :
          Column).dtype = DType.object ∧
        nonNa [Cell.str "1", Cell.str "2", Cell.str "A1"] ≠ [] ∧
        ∃ a, App.analyze_mixed_column
            ((nonNa [Cell.str "1", Cell.str "2", Cell.str "A1"]).take 50)
            "m" = some a ∧ 1 < a.suggestions.length)) ∧
    App.detect_mixed_columns [⟨"y", DType.numeric, [Cell.num 1]⟩] = [] := by
  constructor
  · exact c4_detect_mixed_iff.1
      [⟨"m", DType.object, [Cell.str "1", Cell.str "2", Cell.str "A1"]⟩,
       ⟨"x", DType.numeric, [Cell.num 1]⟩]
      ⟨"m", DType.object, [Cell.str "1", Cell.str "2", Cell.str "A1"]⟩
      (by decide) (List.mem_cons_self _ _)
  · refine c4_detect_mixed_iff.2 _ (fun col hcol => ?_)
    have h := List.mem_singleton.mp hcol
    subst h
    rintro ⟨hdt, _⟩
    exact absurd hdt (by decide)

/-! ### C5 -/

/-- Masked selection keeps as many elements as the mask has `true` entries
(for equal lengths). -/
theorem filterMask_length (xs : List α) :
    ∀ (mask : List Bool), xs.length = mask.length →
      (filterMask mask xs).length = (mask.filter id).length := by
  induction xs with
  | nil =>
    intro mask h
    cases mask with
    | nil => rfl
    | cons b ms => simp at h
  | cons x xs ih =>
    intro mask h
    cases mask with
    | nil => cases h
    | cons b ms =>
      have h2 : xs.length = ms.length := by simpa using h
      cases b <;>
        simp [filterMask, List.filter_cons, List.zip_cons_cons, ih ms h2,
          filterMask] <;>
        simpa [filterMask] using ih ms h2

/-- Counting `true` in a mapped mask is counting the satisfying elements. -/
theorem filter_id_map_length (f : α → Bool) (l : List α) :
    ((l.map f).filter id).length = (l.filter f).length := by
  induction l with
  | nil => rfl
  | cons a l ih =>
    cases hfa : f a <;> simp [List.filter_cons, hfa, ih]

/-- Every element kept by a mask satisfying a pointwise guarantee satisfies
the guarantee. -/
theorem filterMask_all (q : α → Bool) (d : α) :
    ∀ (xs : List α) (mask : List Bool),
      (∀ i, mask.getD i false = true → q (xs.getD i d) = true) →
      ∀ x ∈ filterMask mask xs, q x = true := by
  intro xs
  induction xs with
  | nil =>
    intro mask _ x hx
    simp [filterMask] at hx
  | cons a xs ih =>
    intro mask h x hx
    cases mask with
    | nil => simp [filterMask] at hx
    | cons b ms =>
      have hx2 : x ∈ filterMask (b :: ms) (a :: xs) := hx
      simp only [filterMask, List.zip_cons_cons, List.filter_cons] at hx2
      cases hb : b with
      | true =>
        rw [hb] at hx2
        simp at hx2
        rcases hx2 with h1 | h1
        · subst h1
          have := h 0 (by simp [hb])
          simpa using this
        · refine ih ms (fun i hi => ?_) x ?_
          · have := h (i + 1) (by simpa using hi)
            simpa using this
          · simpa [filterMask] using h1
      | false =>
        rw [hb] at hx2
        simp at hx2
        refine ih ms (fun i hi => ?_) x ?_
        · have := h (i + 1) (by simpa using hi)
          simpa using this
        · simpa [filterMask] using hx2

/-- The complete-row mask reads `rowComplete` below the row count and
defaults to `false` above it. -/
theorem completeMask_getD (t : Table) (i : ℕ) :
    (completeMask t).getD i false = true → rowComplete t i = true := by
  intro h
  by_cases hin : i < rowCount t
  · rw [completeMask, List.getD_eq_getElem?_getD, List.getElem?_map,
      List.getElem?_range hin] at h
    simpa using h
  · rw [completeMask, List.getD_eq_getElem?_getD, List.getElem?_map] at h
    rw [List.getElem?_eq_none (by simpa using Nat.le_of_not_lt hin)] at h
    simp at h

/-- C5: with `delete_null_rows` set, `handle_missing_values` drops every
row containing a missing value and returns immediately (no per-column
imputation): its result table is exactly `df.dropna()`, whose row count is
the number of fully complete input rows and whose per-column missing
counts are all zero. -/
theorem c5_delete_null_rows (cfg : App.Config) (bk : App.KnnBackend)
    (t : Table) (logs : List String) (imp : App.ImputationCfg)
    (himp : cfg.imputation = some imp) (hdel : imp.delete_null_rows = true)
    (hwf : ∀ c ∈ t, c.cells.length = rowCount t) :
    App.handle_missing_values cfg bk t logs =
      .ok (missingCounts t, missingCounts (dropNaRows t), dropNaRows t,
        (logs ++ ["Starting missing value imputation"]) ++
          ["Deleted " ++ toString (rowCount t - rowCount (dropNaRows t)) ++
            " rows containing null values"]) ∧
    rowCount (dropNaRows t) = completeRowCount t ∧
    (∀ p ∈ missingCounts (dropNaRows t), p.2 = 0) := by
  refine ⟨?_, ?_, ?_⟩
  · simp [App.handle_missing_values, himp, hdel, exceptBind_ok,
      exceptPure_eq_ok]
  · cases t with
    | nil => rfl
    | cons c rest =>
      have hc : c.cells.length = rowCount (c :: rest) :=
        hwf c (List.mem_cons_self _ _)
      have hmask : c.cells.length = (completeMask (c :: rest)).length := by
        rw [hc, completeMask, List.length_map, List.length_range]
      calc rowCount (dropNaRows (c :: rest)) =
          (filterMask (completeMask (c :: rest)) c.cells).length := rfl
        _ = ((completeMask (c :: rest)).filter id).length :=
          filterMask_length _ _ hmask
        _ = completeRowCount (c :: rest) := by
          rw [completeMask, filter_id_map_length]
          rfl
  · intro p hp
    rcases List.mem_map.mp hp with ⟨c2, hc2, hpc⟩
    rcases List.mem_map.mp hc2 with ⟨c, hcmem, hcc⟩
    subst hcc
    subst hpc
    show missingCount (filterMask (completeMask t) c.cells) = 0
    rw [missingCount, List.length_eq_zero, List.filter_eq_nil_iff]
    intro x hx
    have hall := filterMask_all (fun y => !y.isNa) Cell.na c.cells
      (completeMask t) (fun i hi => ?_) x hx
    · simpa using hall
    · have hrc := completeMask_getD t i hi
      rw [rowComplete, List.all_eq_true] at hrc
      exact hrc c hcmem

/-- C5 witness: a two-column table with one complete row. -/
theorem c5_delete_null_rows_witness :
    (App.handle_missing_values
        { imputation := some { method := none, delete_null_rows := true } }
        (fun sub _ => sub)
        [⟨"a", DType.object, [Cell.str "x", Cell.na]⟩,
         ⟨"b", DType.object, [Cell.str "y", Cell.str "z"]⟩]
        []).toOption.map (fun r => r.2.2.1) =
      some (dropNaRows
        [⟨"a", DType.object, [Cell.str "x", Cell.na]⟩,
         ⟨"b", DType.object, [Cell.str "y", Cell.str "z"]⟩]) ∧
    rowCount (dropNaRows
        [⟨"a", DType.object, [Cell.str "x", Cell.na]⟩,
         ⟨"b", DType.object, [Cell.str "y", Cell.str "z"]⟩]) =
      completeRowCount
        [⟨"a", DType.object, [Cell.str "x", Cell.na]⟩,
         ⟨"b", DType.object, [Cell.str "y", Cell.str "z"]⟩] ∧
    missingCounts (dropNaRows
        [⟨"a", DType.object, [Cell.str "x", Cell.na]⟩,
         ⟨"b", DType.object, [Cell.str "y", Cell.str "z"]⟩]) =
      [("a", 0), ("b", 0)] := by
  have h := c5_delete_null_rows
    { imputation := some { method := none, delete_null_rows := true } }
    (fun sub _ => sub)
    [⟨"a", DType.object, [Cell.str "x", Cell.na]⟩,
     ⟨"b", DType.object, [Cell.str "y", Cell.str "z"]⟩]
    [] { method := none, delete_null_rows := true } rfl rfl (by decide)
  refine ⟨?_, h.2.1, by decide⟩
  rw [h.1]
  rfl

/-! ### C9 -/

/-- C9: per-unit failures are isolated.  If the conversion body of one
column decision raises, `apply_column_decisions` records the error in the
audit trail, leaves the table unchanged, and continues with the remaining
decisions; if evaluating one rule's mask raises, the rule loop records the
error, skips the rule, and continues with the remaining rules.  In both
loops the failure never propagates (the loop functions are total). -/
theorem c9_per_unit_isolation (nd : String × App.Decision)
    (ds : List (String × App.Decision)) (t : Table) (logs : List String)
    (e : String)
    (hmem : (t.map (fun c => c.name)).contains nd.1 = true)
    (hfail : App.convertBody nd.1 nd.2 t = .error e)
    (r : App.Rule) (rs : List App.Rule) (cnt : ℕ) (t2 : Table)
    (logs2 : List String) (e2 : String)
    (hmem2 : (t2.map (fun c => c.name)).contains r.column = true)
    (hfail2 : App.ruleMask r t2 = .error e2) :
    App.apply_column_decisions (nd :: ds) t logs =
      App.apply_column_decisions ds t
        (logs ++ ["Error processing " ++ nd.1 ++ ": " ++ e]) ∧
    List.foldl App.ruleStep (cnt, t2, logs2) (r :: rs) =
      List.foldl App.ruleStep
        (cnt, t2, logs2 ++ ["Rule error for " ++ r.column ++ " " ++
          r.condition ++ " " ++ r.value ++ ": " ++ e2]) rs := by
  constructor
  · show List.foldl App.decisionStep (t, logs) (nd :: ds) = _
    rw [List.foldl_cons]
    have hstep : App.decisionStep (t, logs) nd =
        (t, logs ++ ["Error processing " ++ nd.1 ++ ": " ++ e]) := by
      have hex : ∃ x ∈ t, x.name = nd.1 := by simpa using hmem
      simp [App.decisionStep, hfail, hex]
    rw [hstep]
    rfl
  · rw [List.foldl_cons]
    have hstep : App.ruleStep (cnt, t2, logs2) r =
        (cnt, t2, logs2 ++ ["Rule error for " ++ r.column ++ " " ++
          r.condition ++ " " ++ r.value ++ ": " ++ e2]) := by
      have hex : ∃ x ∈ t2, x.name = r.column := by simpa using hmem2
      simp [App.ruleStep, hfail2, hex]
    rw [hstep]

/-- C9 witness: a split decision on a numeric column (the `.str` accessor
raises) and a numeric rule with an unparsable value both get logged and
skipped. -/
theorem c9_per_unit_isolation_witness :
    App.apply_column_decisions
        [("s", { action := "split_column" })]
        [⟨"s", DType.numeric, [Cell.num 1]⟩] [] =
      App.apply_column_decisions []
        [⟨"s", DType.numeric, [Cell.num 1]⟩]
        (["Error processing s: Can only use .str accessor with string values"]) ∧
    List.foldl App.ruleStep
        (0, [⟨"a", DType.numeric, [Cell.num 1]⟩], [])
        [{ column := "a", condition := "greater_than", action := "remove",
           value := "abc" }] =
      List.foldl App.ruleStep
        (0, [⟨"a", DType.numeric, [Cell.num 1]⟩],
          ["Rule error for a greater_than abc: " ++
            "could not convert string to float: abc"]) [] := by
  have h := c9_per_unit_isolation
    ("s", { action := "split_column" }) []
    [⟨"s", DType.numeric, [Cell.num 1]⟩] []
    "Can only use .str accessor with string values" rfl rfl
    { column := "a", condition := "greater_than", action := "remove",
      value := "abc" } [] 0
    [⟨"a", DType.numeric, [Cell.num 1]⟩] []
    "could not convert string to float: abc" rfl rfl
  exact h

/-! ### C6 -/

/-- C6: for a numeric column whose effective imputation method is knn, the
candidate set is the target column plus exactly the other numeric columns
with strictly fewer missing values; with at least two candidates the KNN
backend runs with `min(knn_neighbors, rows complete across the candidates)`
neighbors unless that minimum is 0, in which case the column falls back to
its mean; with a single candidate it falls back to mean directly. -/
theorem c6_knn_imputation (imp : App.ImputationCfg) (bk : App.KnnBackend)
    (t : Table) (logs : List String) (col : String)
    (hm : App.effectiveMethod imp col = .ok "knn")
    (hmiss : 0 < colMissing t col) :
    (∀ oc, oc ∈ App.knnCandidates t col ↔
      (oc = col ∨ (oc ∈ numericNames t ∧ oc ≠ col ∧
        colMissing t oc < colMissing t col))) ∧
    (1 < (App.knnCandidates t col).length →
      ((0 < min imp.knn_neighbors
          (completeRowCountOn t (App.knnCandidates t col)) →
        App.imputeColumn imp bk (t, logs) col =
          .ok (App.applyKnnBackend bk t (App.knnCandidates t col)
              (min imp.knn_neighbors
                (completeRowCountOn t (App.knnCandidates t col))),
            logs ++ ["Applied KNN imputation to " ++ col ++ " with " ++
              toString (min imp.knn_neighbors
                (completeRowCountOn t (App.knnCandidates t col))) ++
              " neighbors"])) ∧
      (min imp.knn_neighbors
          (completeRowCountOn t (App.knnCandidates t col)) = 0 →
        App.imputeColumn imp bk (t, logs) col =
          .ok (updateByName t col (App.fillStat meanQ),
            logs ++ ["Fallback: Imputed " ++ col ++ " with mean"])))) ∧
    ((App.knnCandidates t col).length = 1 →
      App.imputeColumn imp bk (t, logs) col =
        .ok (updateByName t col (App.fillStat meanQ),
          logs ++ ["Fallback: Imputed " ++ col ++ " with mean"])) := by
  have hbody : App.imputeColumn imp bk (t, logs) col =
      (if 1 < (App.knnCandidates t col).length then
        (if 0 < min imp.knn_neighbors
            (completeRowCountOn t (App.knnCandidates t col)) then
          .ok (App.applyKnnBackend bk t (App.knnCandidates t col)
              (min imp.knn_neighbors
                (completeRowCountOn t (App.knnCandidates t col))),
            logs ++ ["Applied KNN imputation to " ++ col ++ " with " ++
              toString (min imp.knn_neighbors
                (completeRowCountOn t (App.knnCandidates t col))) ++
              " neighbors"])
        else .ok (updateByName t col (App.fillStat meanQ),
          logs ++ ["Fallback: Imputed " ++ col ++ " with mean"]))
      else .ok (updateByName t col (App.fillStat meanQ),
        logs ++ ["Fallback: Imputed " ++ col ++ " with mean"])) := by
    rw [App.imputeColumn, hm, exceptBind_ok]
    rw [if_pos hmiss]
    rw [if_neg (by decide : ¬ ("knn" = "mean"))]
    rw [if_neg (by decide : ¬ ("knn" = "median"))]
    rw [if_pos (rfl : "knn" = "knn")]
  refine ⟨?_, ?_, ?_⟩
  · intro oc
    simp [App.knnCandidates, List.mem_filter, List.mem_cons, and_assoc]
  · intro hlen
    constructor
    · intro hn
      rw [hbody, if_pos hlen, if_pos hn]
    · intro hn
      rw [hbody, if_pos hlen, if_neg (by omega)]
  · intro hlen
    rw [hbody, if_neg (by omega)]

/-- C6 witness: two numeric columns, one complete shared row, five
configured neighbors degrading to one. -/
theorem c6_knn_imputation_witness :
    App.imputeColumn
        { method := some "knn", knn_neighbors := 5 } (fun sub _ => sub)
        ([⟨"a", DType.numeric, [Cell.num 1, Cell.na]⟩,
          ⟨"b", DType.numeric, [Cell.num 2, Cell.num 3]⟩], []) "a" =
      .ok (App.applyKnnBackend (fun sub _ => sub)
          [⟨"a", DType.numeric, [Cell.num 1, Cell.na]⟩,
           ⟨"b", DType.numeric, [Cell.num 2, Cell.num 3]⟩]
          (App.knnCandidates
            [⟨"a", DType.numeric, [Cell.num 1, Cell.na]⟩,
             ⟨"b", DType.numeric, [Cell.num 2, Cell.num 3]⟩] "a")
          (min 5 (completeRowCountOn
            [⟨"a", DType.numeric, [Cell.num 1, Cell.na]⟩,
             ⟨"b", DType.numeric, [Cell.num 2, Cell.num 3]⟩]
            (App.knnCandidates
              [⟨"a", DType.numeric, [Cell.num 1, Cell.na]⟩,
               ⟨"b", DType.numeric, [Cell.num 2, Cell.num 3]⟩] "a"))),
        ["Applied KNN imputation to a with " ++
          toString (min 5 (completeRowCountOn
            [⟨"a", DType.numeric, [Cell.num 1, Cell.na]⟩,
             ⟨"b", DType.numeric, [Cell.num 2, Cell.num 3]⟩]
            (App.knnCandidates
              [⟨"a", DType.numeric, [Cell.num 1, Cell.na]⟩,
               ⟨"b", DType.numeric, [Cell.num 2, Cell.num 3]⟩] "a"))) ++
          " neighbors"]) ∧
    min 5 (completeRowCountOn
        [⟨"a", DType.numeric, [Cell.num 1, Cell.na]⟩,
         ⟨"b", DType.numeric, [Cell.num 2, Cell.num 3]⟩]
        (App.knnCandidates
          [⟨"a", DType.numeric, [Cell.num 1, Cell.na]⟩,
           ⟨"b", DType.numeric, [Cell.num 2, Cell.num 3]⟩] "a")) = 1 := by
  have h := c6_knn_imputation
    { method := some "knn", knn_neighbors := 5 } (fun sub _ => sub)
    [⟨"a", DType.numeric, [Cell.num 1, Cell.na]⟩,
     ⟨"b", DType.numeric, [Cell.num 2, Cell.num 3]⟩] [] "a"
    rfl (by decide)
  have h2 := (h.2.1 (by decide)).1 (by decide)
  refine ⟨?_, by decide⟩
  rw [h2]
  rfl

/-! ### C2 -/

/-- C2 counterexample: a configuration with imputation effectively disabled
(configured method "none", nothing imputes) but a row-removing rule
enabled.  `process` returns normally, yet the output table's per-column
missing counts differ from the input's: removing the rows where column b
is non-null also removes the missing cell of column a. -/
theorem c2_counterexample :
    (App.process
        { imputation := some { method := some "none" },
          outlier_detection := some { enabled := false },
          rules := some { enabled := true, custom_rules :=
            [{ column := "b", condition := "is_not_null",
               action := "remove" }] } }
        (fun sub _ => sub)
        [⟨"a", DType.numeric, [Cell.na, Cell.num 1]⟩,
         ⟨"b", DType.numeric, [Cell.num 2, Cell.na]⟩]).toOption.map
      (fun r => missingCounts r.2.1) = some [("a", 0), ("b", 1)] ∧
    missingCounts
        [⟨"a", DType.numeric, [Cell.na, Cell.num 1]⟩,
         ⟨"b", DType.numeric, [Cell.num 2, Cell.na]⟩] =
      [("a", 1), ("b", 1)] ∧
    ([("a", 0), ("b", 1)] : List (String × ℕ)) ≠ [("a", 1), ("b", 1)] := by
  refine ⟨rfl, rfl, by decide⟩

/-- C2 (amended): when every stage is genuinely inert — all four config
sections present, empty schema mapping, a configured imputation method
that is none of mean/median/knn, no row deletion, no column overrides,
outlier detection disabled and rules disabled — `process` returns normally
with the table unchanged, in particular with identical per-column
missing-value counts.  (As stated the claim fails: absent sections raise
KeyError, and enabled row-removing stages change the counts.) -/
theorem c2_disabled_stages_frame (cfg : App.Config) (bk : App.KnnBackend)
    (t : Table) (imp : App.ImputationCfg) (oc : App.OutlierDetectionCfg)
    (rc : App.RulesCfg) (m : String)
    (hsm : cfg.schema_mapping = [])
    (himp : cfg.imputation = some imp)
    (hmm : imp.method = some m)
    (hm1 : m ≠ "mean") (hm2 : m ≠ "median") (hm3 : m ≠ "knn")
    (hdel : imp.delete_null_rows = false)
    (hcs : imp.column_specific = [])
    (hoc : cfg.outlier_detection = some oc) (hoe : oc.enabled = false)
    (hrc : cfg.rules = some rc) (hre : rc.enabled = false) :
    (App.process cfg bk t).toOption.map (fun r => r.2.1) = some t ∧
    (App.process cfg bk t).toOption.map (fun r => missingCounts r.2.1) =
      some (missingCounts t) := by
  have hsm2 : App.apply_schema_mapping cfg.schema_mapping t
      ["Started processing"] = (t, ["Started processing"]) := by
    rw [hsm]
    rfl
  have hstep : ∀ (st : Table × List String) col,
      App.imputeColumn imp bk st col = .ok st := by
    intro st col
    have heff : App.effectiveMethod imp col = .ok m := by
      simp [App.effectiveMethod, hcs, hmm]
    rw [App.imputeColumn, heff, exceptBind_ok]
    by_cases hmiss : 0 < colMissing st.1 col
    · rw [if_pos hmiss, if_neg hm1, if_neg hm2, if_neg hm3]
    · rw [if_neg hmiss]
  have hhmv : ∀ l : List String, ∃ l2,
      App.handle_missing_values cfg bk t l =
        .ok (missingCounts t, missingCounts t, t, l2) := by
    intro l
    simp only [App.handle_missing_values, himp, exceptBind_ok, hdel,
      Bool.false_eq_true, if_false]
    by_cases hnc : (numericNames t).isEmpty
    · rw [if_pos hnc]
      exact ⟨_, rfl⟩
    · rw [if_neg hnc]
      rw [foldlM_ok_id _ _ _ (fun s2 b _ => hstep s2 b), exceptBind_ok]
      exact ⟨_, rfl⟩
  rcases hhmv ["Started processing"] with ⟨l2, hh⟩
  have hdo : App.detect_outliers cfg t l2 = .ok (0, t, l2) := by
    simp [App.detect_outliers, hoc, hoe, exceptBind_ok, exceptPure_eq_ok]
  have hra : App.apply_rules cfg t l2 = .ok (0, t, l2) := by
    simp [App.apply_rules, hrc, hre, exceptBind_ok, exceptPure_eq_ok]
  simp only [App.process, hsm2, hh, hdo, hra, exceptBind_ok,
    exceptPure_eq_ok]
  exact ⟨rfl, rfl⟩

/-- C2 witness for the amended claim: a concrete inert configuration on a
table with a missing value. -/
theorem c2_disabled_stages_frame_witness :
    (App.process
        { imputation := some { method := some "none" },
          outlier_detection := some { enabled := false },
          rules := some { enabled := false } }
        (fun sub _ => sub)
        [⟨"a", DType.numeric, [Cell.na, Cell.num 1]⟩]).toOption.map
      (fun r => r.2.1) =
      some [⟨"a", DType.numeric, [Cell.na, Cell.num 1]⟩] ∧
    (App.process
        { imputation := some { method := some "none" },
          outlier_detection := some { enabled := false },
          rules := some { enabled := false } }
        (fun sub _ => sub)
        [⟨"a", DType.numeric, [Cell.na, Cell.num 1]⟩]).toOption.map
      (fun r => missingCounts r.2.1) =
      some (missingCounts [⟨"a", DType.numeric, [Cell.na, Cell.num 1]⟩]) := by
  exact c2_disabled_stages_frame
    { imputation := some { method := some "none" },
      outlier_detection := some { enabled := false },
      rules := some { enabled := false } }
    (fun sub _ => sub)
    [⟨"a", DType.numeric, [Cell.na, Cell.num 1]⟩]
    { method := some "none" } { enabled := false } { enabled := false }
    "none" rfl rfl rfl (by decide) (by decide) (by decide) rfl rfl rfl
    rfl rfl rfl

/-! ### C7 -/

/-- Filling never leaves a missing cell behind. -/
theorem fillWith_missingCount (cells : List Cell) (v : ℚ) :
    missingCount (App.fillWith cells v) = 0 := by
  have hnone : ∀ c ∈ App.fillWith cells v, ¬ c.isNa = true := by
    intro c hc
    rcases List.mem_map.mp hc with ⟨c0, _, hcc⟩
    subst hcc
    cases c0 <;> simp [Cell.isNa]
  rw [missingCount, List.length_eq_zero, List.filter_eq_nil_iff]
  exact hnone

/-- Filling leaves present cells untouched. -/
theorem fillWith_get_present (cells : List Cell) (v : ℚ) (j : ℕ) (x : Cell)
    (hx : cells[j]? = some x) (hna : x.isNa = false) :
    (App.fillWith cells v)[j]? = some x := by
  rw [App.fillWith, List.getElem?_map, hx]
  simp [hna]

/-- Filling writes the fill value into every missing cell. -/
theorem fillWith_get_missing (cells : List Cell) (v : ℚ) (j : ℕ)
    (hx : cells[j]? = some Cell.na) :
    (App.fillWith cells v)[j]? = some (Cell.num v) := by
  rw [App.fillWith, List.getElem?_map, hx]
  simp [Cell.isNa]

/-- Filling a column with no missing cell does nothing. -/
theorem fillWith_of_no_missing (cells : List Cell) (v : ℚ)
    (h : missingCount cells = 0) : App.fillWith cells v = cells := by
  rw [missingCount, List.length_eq_zero, List.filter_eq_nil_iff] at h
  rw [App.fillWith]
  have : ∀ c ∈ cells, (if c.isNa then Cell.num v else c) = c := by
    intro c hc
    rw [if_neg]
    simpa using h c hc
  rw [List.map_congr_left this]
  exact List.map_id' cells

/-- The statistic fill preserves the column name. -/
theorem fillStat_name (statFn : List ℚ → ℚ) (c : Column) :
    (App.fillStat statFn c).name = c.name := by
  rw [App.fillStat]
  split <;> rfl

/-- Folding the per-column statistic fill over a duplicate-free name list:
each listed column with missing values is filled from its own cells. -/
theorem statFold_getElem (statFn : List ℚ → ℚ) :
    ∀ (names : List String) (t : Table), names.Nodup →
      (t.map Column.name).Nodup → ∀ (i : ℕ) (hi : i < t.length),
      (names.foldl (fun acc col =>
        if 0 < colMissing acc col
        then updateByName acc col (App.fillStat statFn) else acc) t)[i]? =
      some (if (t.get ⟨i, hi⟩).name ∈ names then
        (if 0 < missingCount (t.get ⟨i, hi⟩).cells
         then App.fillStat statFn (t.get ⟨i, hi⟩) else t.get ⟨i, hi⟩)
        else t.get ⟨i, hi⟩) := by
  refine foldl_step_getElem
    (fun acc col =>
      if 0 < colMissing acc col
      then updateByName acc col (App.fillStat statFn) else acc)
    (fun c => if 0 < missingCount c.cells
              then App.fillStat statFn c else c) ?_ ?_ ?_ ?_
  · intro acc n
    dsimp only
    by_cases hP : 0 < colMissing acc n <;> simp [hP, updateByName_length]
  · intro acc n hacc
    dsimp only
    by_cases hP : 0 < colMissing acc n
    · rw [if_pos hP]
      exact updateByName_map_name acc n _ (fillStat_name statFn)
    · rw [if_neg hP]
  · intro acc n j hj hne
    dsimp only
    by_cases hP : 0 < colMissing acc n
    · rw [if_pos hP, updateByName_getElem? acc n _ j hj, if_neg hne]
    · rw [if_neg hP]
      exact getElem?_eq_some_get acc j hj
  · intro acc n j hj hndacc hname
    dsimp only
    have hcc : colMissing acc n = missingCount (acc.get ⟨j, hj⟩).cells := by
      rw [← hname, colMissing,
        colCells_mem acc hndacc _ (List.get_mem acc j hj)]
    by_cases hP : 0 < colMissing acc n
    · rw [if_pos hP, updateByName_getElem? acc n _ j hj, if_pos hname]
      rw [hcc] at hP
      rw [if_pos hP]
    · rw [if_neg hP]
      rw [hcc] at hP
      rw [if_neg hP]
      exact getElem?_eq_some_get acc j hj

/-- Positional description of `handle_missing_values` when every per-column
step is a plain per-column statistic fill: each numeric column with missing
values is filled from its own cells, everything else is untouched. -/
theorem handle_positional (cfg : App.Config) (bk : App.KnnBackend)
    (t : Table) (logs : List String) (imp : App.ImputationCfg)
    (statFn : List ℚ → ℚ) (msg : String → List String)
    (himp : cfg.imputation = some imp)
    (hdel : imp.delete_null_rows = false)
    (hstep : ∀ (st : Table × List String) col,
      App.imputeColumn imp bk st col =
        .ok (if 0 < colMissing st.1 col
             then (updateByName st.1 col (App.fillStat statFn),
               st.2 ++ msg col)
             else st))
    (hnd : (t.map Column.name).Nodup) (i : ℕ) (hi : i < t.length) :
    (App.handle_missing_values cfg bk t logs).toOption.map
        (fun r => r.2.2.1[i]?) =
      some (some (if (t.get ⟨i, hi⟩).dtype = DType.numeric then
        (if 0 < missingCount (t.get ⟨i, hi⟩).cells
         then App.fillStat statFn (t.get ⟨i, hi⟩) else t.get ⟨i, hi⟩)
        else t.get ⟨i, hi⟩)) := by
  by_cases hnc : (numericNames t).isEmpty
  · have hh : App.handle_missing_values cfg bk t logs =
        .ok (missingCounts t, missingCounts t, t,
          (logs ++ ["Starting missing value imputation"]) ++
            ["No numeric columns found for imputation"]) := by
      simp only [App.handle_missing_values, himp, exceptBind_ok, hdel,
        Bool.false_eq_true, if_false, if_pos hnc]
      rfl
    rw [hh]
    have hne : ¬ (t.get ⟨i, hi⟩).dtype = DType.numeric := by
      intro hdt
      have := mem_numericNames t i hi hdt
      rw [List.isEmpty_iff] at hnc
      rw [hnc] at this
      cases this
    show some (t[i]?) = _
    rw [if_neg hne, getElem?_eq_some_get t i hi]
  · have hfold : (numericNames t).foldlM (App.imputeColumn imp bk)
        (t, logs ++ ["Starting missing value imputation"]) =
        .ok ((numericNames t).foldl
          (fun st col =>
            if 0 < colMissing st.1 col
            then (updateByName st.1 col (App.fillStat statFn),
              st.2 ++ msg col)
            else st)
          (t, logs ++ ["Starting missing value imputation"])) :=
      foldlM_ok_of_ok _ _ _ _ (fun s2 b _ => hstep s2 b)
    have hh : App.handle_missing_values cfg bk t logs =
        .ok (missingCounts t,
          missingCounts ((numericNames t).foldl
            (fun st col =>
              if 0 < colMissing st.1 col
              then (updateByName st.1 col (App.fillStat statFn),
                st.2 ++ msg col)
              else st)
            (t, logs ++ ["Starting missing value imputation"])).1,
          ((numericNames t).foldl
            (fun st col =>
              if 0 < colMissing st.1 col
              then (updateByName st.1 col (App.fillStat statFn),
                st.2 ++ msg col)
              else st)
            (t, logs ++ ["Starting missing value imputation"])).1,
          ((numericNames t).foldl
            (fun st col =>
              if 0 < colMissing st.1 col
              then (updateByName st.1 col (App.fillStat statFn),
                st.2 ++ msg col)
              else st)
            (t, logs ++ ["Starting missing value imputation"])).2) := by
      simp only [App.handle_missing_values, himp, exceptBind_ok, hdel,
        Bool.false_eq_true, if_false, if_neg hnc, hfold, exceptBind_ok]
      rfl
    rw [hh]
    have htab := foldl_fst
      (fun st col =>
        if 0 < colMissing st.1 col
        then (updateByName st.1 col (App.fillStat statFn), st.2 ++ msg col)
        else st)
      (fun tt col =>
        if 0 < colMissing tt col
        then updateByName tt col (App.fillStat statFn) else tt)
      (fun s c => by by_cases hP : 0 < colMissing s.1 c <;> simp [hP])
      (numericNames t) (t, logs ++ ["Starting missing value imputation"])
    show some ((((numericNames t).foldl _
      (t, logs ++ ["Starting missing value imputation"])).1)[i]?) = _
    rw [htab,
      statFold_getElem statFn (numericNames t) t (numericNames_nodup t hnd)
        hnd i hi]
    by_cases hdt : (t.get ⟨i, hi⟩).dtype = DType.numeric
    · rw [if_pos (mem_numericNames t i hi hdt), if_pos hdt]
    · rw [if_neg (not_mem_numericNames t hnd i hi hdt), if_neg hdt]

/-- C7 (amended): mean (respectively median) imputation on a numeric
column with at least one present value leaves it with zero missing values,
keeps every originally-present cell unchanged, and writes the mean
(respectively median) of the originally-present values into every missing
cell.  (As stated the claim fails: on the spec's own example the fill
value is 450050, not 450000, and an all-missing numeric column keeps its
missing cells.) -/
theorem c7_mean_median_imputation (cfg : App.Config) (bk : App.KnnBackend)
    (t : Table) (logs : List String) (imp : App.ImputationCfg) (m : String)
    (himp : cfg.imputation = some imp) (hmm : imp.method = some m)
    (hm : m = "mean" ∨ m = "median")
    (hdel : imp.delete_null_rows = false) (hcs : imp.column_specific = [])
    (hnd : (t.map Column.name).Nodup)
    (i : ℕ) (hi : i < t.length)
    (hdt : (t.get ⟨i, hi⟩).dtype = DType.numeric)
    (hp : presentNums (t.get ⟨i, hi⟩).cells ≠ []) :
    (App.handle_missing_values cfg bk t logs).toOption.map
        (fun r => r.2.2.1[i]?) =
      some (some (Column.mk (t.get ⟨i, hi⟩).name (t.get ⟨i, hi⟩).dtype
        (App.fillWith (t.get ⟨i, hi⟩).cells
          ((if m = "mean" then meanQ else medianQ)
            (presentNums (t.get ⟨i, hi⟩).cells))))) ∧
    missingCount (App.fillWith (t.get ⟨i, hi⟩).cells
      ((if m = "mean" then meanQ else medianQ)
        (presentNums (t.get ⟨i, hi⟩).cells))) = 0 ∧
    (∀ (j : ℕ) (x : Cell), (t.get ⟨i, hi⟩).cells[j]? = some x →
      x.isNa = false →
      (App.fillWith (t.get ⟨i, hi⟩).cells
        ((if m = "mean" then meanQ else medianQ)
          (presentNums (t.get ⟨i, hi⟩).cells)))[j]? = some x) ∧
    (∀ j : ℕ, (t.get ⟨i, hi⟩).cells[j]? = some Cell.na →
      (App.fillWith (t.get ⟨i, hi⟩).cells
        ((if m = "mean" then meanQ else medianQ)
          (presentNums (t.get ⟨i, hi⟩).cells)))[j]? =
        some (Cell.num ((if m = "mean" then meanQ else medianQ)
          (presentNums (t.get ⟨i, hi⟩).cells)))) := by
  have heff : ∀ col, App.effectiveMethod imp col = .ok m := by
    intro col
    simp [App.effectiveMethod, hcs, hmm]
  have hstat : ∀ statFn : List ℚ → ℚ,
      App.fillStat statFn (t.get ⟨i, hi⟩) =
        Column.mk (t.get ⟨i, hi⟩).name (t.get ⟨i, hi⟩).dtype
          (App.fillWith (t.get ⟨i, hi⟩).cells
            (statFn (presentNums (t.get ⟨i, hi⟩).cells))) := by
    intro statFn
    rw [App.fillStat, if_neg hp]
  refine ⟨?_, fillWith_missingCount _ _, fillWith_get_present _ _,
    fillWith_get_missing _ _⟩
  rcases hm with rfl | rfl
  · have hstep : ∀ (st : Table × List String) col,
        App.imputeColumn imp bk st col =
          .ok (if 0 < colMissing st.1 col
               then (updateByName st.1 col (App.fillStat meanQ),
                 st.2 ++ ["Imputed " ++ col ++ " with mean"])
               else st) := by
      intro st col
      rw [App.imputeColumn, heff col, exceptBind_ok]
      by_cases hmiss : 0 < colMissing st.1 col
      · rw [if_pos hmiss, if_pos rfl, if_pos hmiss]
      · rw [if_neg hmiss, if_neg hmiss]
    have hpos := handle_positional cfg bk t logs imp meanQ
      (fun col => ["Imputed " ++ col ++ " with mean"]) himp hdel hstep hnd i hi
    rw [hpos]
    rw [if_pos hdt]
    by_cases hmiss : 0 < missingCount (t.get ⟨i, hi⟩).cells
    · rw [if_pos hmiss, hstat meanQ, if_pos rfl]
    · rw [if_neg hmiss, if_pos rfl]
      rw [fillWith_of_no_missing _ _ (Nat.eq_zero_of_not_pos hmiss)]
  · have hstep : ∀ (st : Table × List String) col,
        App.imputeColumn imp bk st col =
          .ok (if 0 < colMissing st.1 col
               then (updateByName st.1 col (App.fillStat medianQ),
                 st.2 ++ ["Imputed " ++ col ++ " with median"])
               else st) := by
      intro st col
      rw [App.imputeColumn, heff col, exceptBind_ok]
      by_cases hmiss : 0 < colMissing st.1 col
      · rw [if_pos hmiss, if_neg (by decide : ¬ ("median" = "mean")),
          if_pos rfl, if_pos hmiss]
      · rw [if_neg hmiss, if_neg hmiss]
    have hpos := handle_positional cfg bk t logs imp medianQ
      (fun col => ["Imputed " ++ col ++ " with median"]) himp hdel hstep hnd
      i hi
    rw [hpos]
    rw [if_pos hdt]
    by_cases hmiss : 0 < missingCount (t.get ⟨i, hi⟩).cells
    · rw [if_pos hmiss, hstat medianQ,
        if_neg (by decide : ¬ ("median" = "mean"))]
    · rw [if_neg hmiss, if_neg (by decide : ¬ ("median" = "mean"))]
      rw [fillWith_of_no_missing _ _ (Nat.eq_zero_of_not_pos hmiss)]

/-- C7 counterexample: on the spec's own end-to-end example (amount column
100, missing, 900000 under method mean) the missing cell is filled with
mean(100, 900000) = 450050, not 450000 as the claim states. -/
theorem c7_counterexample :
    (App.handle_missing_values
        { imputation := some { method := some "mean" } }
        (fun sub _ => sub)
        [⟨"id", DType.numeric, [Cell.num 1, Cell.num 2, Cell.num 3]⟩,
         ⟨"amount", DType.numeric, [Cell.num 100, Cell.na, Cell.num 900000]⟩,
         ⟨"note", DType.object, [Cell.str "ok", Cell.str "bad",
           Cell.str "ok"]⟩] []).toOption.map
        (fun r => colCells r.2.2.1 "amount") =
      some (App.fillWith [Cell.num 100, Cell.na, Cell.num 900000]
        (meanQ (presentNums [Cell.num 100, Cell.na, Cell.num 900000]))) ∧
    App.fillWith [Cell.num 100, Cell.na, Cell.num 900000]
        (meanQ (presentNums [Cell.num 100, Cell.na, Cell.num 900000])) =
      [Cell.num 100, Cell.num 450050, Cell.num 900000] ∧
    (450050 : ℚ) ≠ 450000 := by
  refine ⟨rfl, ?_, by norm_num⟩
  norm_num [App.fillWith, meanQ, listSum, presentNums, Cell.asNum,
    Cell.isNa, List.filterMap_cons]

/-- C7 witness for the amended claim: the corrected fill value 450050. -/
theorem c7_mean_median_imputation_witness :
    (App.handle_missing_values
        { imputation := some { method := some "mean" } }
        (fun sub _ => sub)
        [⟨"id", DType.numeric, [Cell.num 1, Cell.num 2, Cell.num 3]⟩,
         ⟨"amount", DType.numeric, [Cell.num 100, Cell.na, Cell.num 900000]⟩,
         ⟨"note", DType.object, [Cell.str "ok", Cell.str "bad",
           Cell.str "ok"]⟩] []).toOption.map
        (fun r => r.2.2.1[1]?) =
      some (some (Column.mk "amount" DType.numeric
        [Cell.num 100, Cell.num 450050, Cell.num 900000])) ∧
    missingCount [Cell.num 100, Cell.num 450050, Cell.num 900000] = 0 := by
  have h := c7_mean_median_imputation
    { imputation := some { method := some "mean" } }
    (fun sub _ => sub)
    [⟨"id", DType.numeric, [Cell.num 1, Cell.num 2, Cell.num 3]⟩,
     ⟨"amount", DType.numeric, [Cell.num 100, Cell.na, Cell.num 900000]⟩,
     ⟨"note", DType.object, [Cell.str "ok", Cell.str "bad", Cell.str "ok"]⟩]
    [] { method := some "mean" } "mean" rfl rfl (Or.inl rfl) rfl rfl
    (by decide) 1 (by decide) rfl (by decide)
  refine ⟨?_, by decide⟩
  rw [h.1]
  norm_num [App.fillWith, meanQ, listSum, presentNums, Cell.asNum,
    Cell.isNa, List.filterMap_cons]

/-! ### C8: IQR capping in `DataProcessor.detect_outliers` -/

theorem capColumn_name (c : Column) : (DProc.capColumn c).name = c.name := by
  simp only [DProc.capColumn]
  split <;> rfl

theorem capColumn_cells_length (c : Column) :
    (DProc.capColumn c).cells.length = c.cells.length := by
  simp only [DProc.capColumn]
  split <;> simp

theorem foldl_length_eq (step : Table → String → Table)
    (hlen : ∀ acc n, (step acc n).length = acc.length) :
    ∀ (names : List String) (t : Table),
      (names.foldl step t).length = t.length := by
  intro names
  induction names with
  | nil => intro t; rfl
  | cons n ns ih =>
    intro t
    rw [List.foldl_cons, ih, hlen]

theorem rowCount_eq_head (t : Table) (r : Column) (h : t[0]? = some r) :
    rowCount t = r.cells.length := by
  cases t with
  | nil => simp at h
  | cons c cs =>
    simp only [List.getElem?_cons_zero, Option.some.injEq] at h
    subst h
    rfl

theorem interp_le_interp_same (A B hp hq c : ℚ) (hAB : A ≤ B)
    (hpq : hp ≤ hq) :
    A + (hp - c) * (B - A) ≤ A + (hq - c) * (B - A) := by
  nlinarith [mul_le_mul_of_nonneg_right hpq (sub_nonneg.mpr hAB)]

theorem interp_le_upper (A B hp c : ℚ) (hAB : A ≤ B) (ht1 : hp - c ≤ 1) :
    A + (hp - c) * (B - A) ≤ B := by
  nlinarith [mul_nonneg (sub_nonneg.mpr ht1) (sub_nonneg.mpr hAB)]

theorem lower_le_interp (A B hq c : ℚ) (hAB : A ≤ B) (ht0 : 0 ≤ hq - c) :
    A ≤ A + (hq - c) * (B - A) := by
  nlinarith [mul_nonneg ht0 (sub_nonneg.mpr hAB)]

/-- The linear-interpolation quantile is monotone in the probability on a
sorted value list: the interpolated value at `p` stays below the one at
`q ≥ p`. -/
theorem quantileSorted_mono (v : List ℚ) (hv : v ≠ [])
    (hs : List.Sorted (fun a b => a ≤ b) v)
    {p q : ℚ} (hp0 : 0 ≤ p) (hpq : p ≤ q) (hq1 : q ≤ 1) :
    quantileSorted v p ≤ quantileSorted v q := by
  have hm : 0 < v.length := List.length_pos.mpr hv
  set m := v.length with hmdef
  have hm1 : (1 : ℚ) ≤ (m : ℚ) := by exact_mod_cast hm
  have hm1n : 1 ≤ m := hm
  have hmnn : (0 : ℚ) ≤ (m : ℚ) - 1 := by linarith
  set hp := p * ((m : ℚ) - 1) with hhp
  set hq := q * ((m : ℚ) - 1) with hhq
  have hp_nn : 0 ≤ hp := mul_nonneg hp0 hmnn
  have hq0 : 0 ≤ q := hp0.trans hpq
  have hq_nn : 0 ≤ hq := mul_nonneg hq0 hmnn
  have hpq2 : hp ≤ hq := mul_le_mul_of_nonneg_right hpq hmnn
  have hq_le : hq ≤ (m : ℚ) - 1 := by
    have := mul_le_mul_of_nonneg_right hq1 hmnn
    simpa using this
  set ip := (Int.floor hp).toNat with hipdef
  set iq := (Int.floor hq).toNat with hiqdef
  have hfp : ((ip : ℕ) : ℤ) = Int.floor hp :=
    Int.toNat_of_nonneg (Int.le_floor.mpr (by exact_mod_cast hp_nn))
  have hfq : ((iq : ℕ) : ℤ) = Int.floor hq :=
    Int.toNat_of_nonneg (Int.le_floor.mpr (by exact_mod_cast hq_nn))
  have hip_le : ((ip : ℕ) : ℚ) ≤ hp := by
    have h1 := Int.floor_le hp
    rw [← hfp] at h1
    exact_mod_cast h1
  have hip_lt : hp < ((ip : ℕ) : ℚ) + 1 := by
    have h1 := Int.lt_floor_add_one hp
    rw [← hfp] at h1
    exact_mod_cast h1
  have hiq_le : ((iq : ℕ) : ℚ) ≤ hq := by
    have h1 := Int.floor_le hq
    rw [← hfq] at h1
    exact_mod_cast h1
  have hiq_lt : hq < ((iq : ℕ) : ℚ) + 1 := by
    have h1 := Int.lt_floor_add_one hq
    rw [← hfq] at h1
    exact_mod_cast h1
  have hij : ip ≤ iq := by
    have h1 : Int.floor hp ≤ Int.floor hq := Int.floor_mono hpq2
    omega
  have hiq_m : iq ≤ m - 1 := by
    have h2 : ((iq : ℕ) : ℚ) ≤ ((m - 1 : ℕ) : ℚ) := by
      rw [Nat.cast_sub hm1n]
      push_cast
      linarith [hiq_le.trans hq_le]
    exact_mod_cast h2
  have hipm : ip < m := by omega
  have hiqm : iq < m := by omega
  set jp := min (ip + 1) (m - 1) with hjpdef
  set jq := min (iq + 1) (m - 1) with hjqdef
  have hjpm : jp < m := by omega
  have hjqm : jq < m := by omega
  have hgetD : ∀ (k : ℕ) (hk : k < m), v.getD k 0 = v.get ⟨k, hk⟩ := by
    intro k hk
    simp [List.getD_eq_getElem?_getD, List.getElem?_eq_getElem hk,
      List.get_eq_getElem]
  have hsle : ∀ (k l2 : ℕ) (hk : k < m) (hl : l2 < m), k ≤ l2 →
      v.get ⟨k, hk⟩ ≤ v.get ⟨l2, hl⟩ := by
    intro k l2 hk hl hkl
    exact hs.rel_get_of_le (Fin.mk_le_mk.mpr hkl)
  have hvp : quantileSorted v p =
      v.getD ip 0 + (hp - (ip : ℚ)) * (v.getD jp 0 - v.getD ip 0) := rfl
  have hvq : quantileSorted v q =
      v.getD iq 0 + (hq - (iq : ℚ)) * (v.getD jq 0 - v.getD iq 0) := rfl
  rw [hgetD ip hipm, hgetD jp hjpm] at hvp
  rw [hgetD iq hiqm, hgetD jq hjqm] at hvq
  rw [hvp, hvq]
  clear_value jq jp iq ip hq hp
  rcases Nat.lt_or_ge ip iq with hlt | hge
  · have hjp_iq : jp ≤ iq := by omega
    set ap := v.get ⟨ip, hipm⟩ with hapdef
    set bp := v.get ⟨jp, hjpm⟩ with hbpdef
    set aq := v.get ⟨iq, hiqm⟩ with haqdef
    set bq := v.get ⟨jq, hjqm⟩ with hbqdef
    have hab_p : ap ≤ bp := hsle ip jp hipm hjpm (by omega)
    have hab_q : aq ≤ bq := hsle iq jq hiqm hjqm (by omega)
    have hmid : bp ≤ aq := hsle jp iq hjpm hiqm hjp_iq
    have htp1 : hp - (ip : ℚ) ≤ 1 := by linarith
    have htp0 : 0 ≤ hp - (ip : ℚ) := by linarith
    have htq0 : 0 ≤ hq - (iq : ℚ) := by linarith
    have h1 : ap + (hp - (ip : ℚ)) * (bp - ap) ≤ bp :=
      interp_le_upper ap bp hp (ip : ℚ) hab_p htp1
    have h2 : aq ≤ aq + (hq - (iq : ℚ)) * (bq - aq) :=
      lower_le_interp aq bq hq (iq : ℚ) hab_q htq0
    linarith [h1, h2, hmid]
  · have heq : ip = iq := le_antisymm hij hge
    have hjeq : jp = jq := by omega
    have hfin1 : (⟨ip, hipm⟩ : Fin m) = ⟨iq, hiqm⟩ := Fin.ext heq
    have hfin2 : (⟨jp, hjpm⟩ : Fin m) = ⟨jq, hjqm⟩ := Fin.ext hjeq
    rw [hfin1, hfin2]
    have heqQ : ((ip : ℕ) : ℚ) = ((iq : ℕ) : ℚ) := by rw [heq]
    rw [heqQ]
    have haq_bq : v.get ⟨iq, hiqm⟩ ≤ v.get ⟨jq, hjqm⟩ :=
      hsle iq jq hiqm hjqm (by omega)
    exact interp_le_interp_same _ _ hp hq _ haq_bq hpq2

/-- On a nonempty value list the first quartile never exceeds the third. -/
theorem quantileQ_q1_le_q3 (l : List ℚ) (hl : l ≠ []) :
    quantileQ l (1/4) ≤ quantileQ l (3/4) := by
  simp only [quantileQ]
  have h1 : 0 < l.length := List.length_pos.mpr hl
  have h2 : 0 < (List.insertionSort (fun a b => a ≤ b) l).length := by
    rw [List.length_insertionSort]
    exact h1
  exact quantileSorted_mono _ (List.length_pos.mp h2)
    (List.sorted_insertionSort _ l) (by norm_num) (by norm_num) (by norm_num)

/-- The IQR cap bounds are always ordered: `Q1 − 1.5·IQR ≤ Q3 + 1.5·IQR`. -/
theorem iqrBoundsOf_le {cells : List Cell} {lo hi : ℚ}
    (h : DProc.iqrBoundsOf cells = some (lo, hi)) : lo ≤ hi := by
  simp only [DProc.iqrBoundsOf] at h
  by_cases hp : presentNums cells = []
  · rw [if_pos hp] at h
    simp at h
  · rw [if_neg hp] at h
    have h13 : quantileQ (presentNums cells) (1/4) ≤
        quantileQ (presentNums cells) (3/4) := quantileQ_q1_le_q3 _ hp
    rw [Option.some.injEq, Prod.mk.injEq] at h
    obtain ⟨h1, h2⟩ := h
    subst h1
    subst h2
    linarith

/-- C8: with the `iqr` method and the `cap` action, `detect_outliers` keeps
the column list length and the row count, leaves non-numeric columns
untouched, and rewrites each numeric column by `capColumn`: the bounds
`lo ≤ hi` are `[Q1 − 1.5·IQR, Q3 + 1.5·IQR]` computed by `iqrBoundsOf` from
that column's own pre-cap cells, every cell is clamped into `[lo, hi]`
(below-range values to `lo`, above-range values to `hi`, in-range and
missing cells unchanged), and afterwards every numeric value of the column
lies in `[lo, hi]`. -/
theorem c8_iqr_cap (oc : DProc.OutlierCfg) (t : Table)
    (hm : oc.method = "iqr") (ha : oc.action = "cap")
    (hnd : (t.map Column.name).Nodup) :
    (DProc.detect_outliers (some oc) t).length = t.length ∧
    rowCount (DProc.detect_outliers (some oc) t) = rowCount t ∧
    ∀ (i : ℕ) (hi : i < t.length),
      ((t.get ⟨i, hi⟩).dtype ≠ DType.numeric →
        (DProc.detect_outliers (some oc) t)[i]? = some (t.get ⟨i, hi⟩)) ∧
      ((t.get ⟨i, hi⟩).dtype = DType.numeric →
        (DProc.detect_outliers (some oc) t)[i]? =
          some (DProc.capColumn (t.get ⟨i, hi⟩)) ∧
        ∀ lo hi2 : ℚ,
          DProc.iqrBoundsOf (t.get ⟨i, hi⟩).cells = some (lo, hi2) →
          lo ≤ hi2 ∧
          (DProc.capColumn (t.get ⟨i, hi⟩)).cells =
            (t.get ⟨i, hi⟩).cells.map (DProc.capCell lo hi2) ∧
          (∀ q : ℚ, lo ≤ q → q ≤ hi2 →
            DProc.capCell lo hi2 (Cell.num q) = Cell.num q) ∧
          (∀ q : ℚ, q < lo →
            DProc.capCell lo hi2 (Cell.num q) = Cell.num lo) ∧
          (∀ q : ℚ, hi2 < q →
            DProc.capCell lo hi2 (Cell.num q) = Cell.num hi2) ∧
          (∀ c, c ∈ (DProc.capColumn (t.get ⟨i, hi⟩)).cells →
            ∀ q : ℚ, c = Cell.num q → lo ≤ q ∧ q ≤ hi2)) := by
  have hstep : (fun (acc : Table) (n : String) =>
      if oc.action = "remove" then DProc.removeRowsFor acc n
      else if oc.action = "cap" then updateByName acc n DProc.capColumn
      else acc) =
      (fun acc n => updateByName acc n DProc.capColumn) := by
    funext acc n
    rw [ha, if_neg (by decide : ¬ ("cap" : String) = "remove"), if_pos rfl]
  have hdet : DProc.detect_outliers (some oc) t =
      (numericNames t).foldl
        (fun acc n => updateByName acc n DProc.capColumn) t := by
    show (if oc.method = "iqr" then
        (numericNames t).foldl (fun acc n =>
          if oc.action = "remove" then DProc.removeRowsFor acc n
          else if oc.action = "cap" then updateByName acc n DProc.capColumn
          else acc) t
      else t) = _
    rw [if_pos hm, hstep]
  have hmaster := foldl_step_getElem
      (fun acc n => updateByName acc n DProc.capColumn) DProc.capColumn
      (fun acc n => updateByName_length acc n _)
      (fun acc n hacc => updateByName_map_name acc n _ capColumn_name)
      (fun acc n j hj hne => by
        rw [updateByName_getElem? acc n _ j hj, if_neg hne])
      (fun acc n j hj hndacc hname => by
        rw [updateByName_getElem? acc n _ j hj, if_pos hname])
      (numericNames t) t (numericNames_nodup t hnd) hnd
  have hlenall : ((numericNames t).foldl
      (fun acc n => updateByName acc n DProc.capColumn) t).length =
      t.length :=
    foldl_length_eq _ (fun acc n => updateByName_length acc n _)
      (numericNames t) t
  refine ⟨by rw [hdet]; exact hlenall, ?_, ?_⟩
  · rcases t with _ | ⟨c0, rest⟩
    · rw [hdet]
      rfl
    · have h0 : 0 < (c0 :: rest).length := Nat.succ_pos _
      have hpos := hmaster 0 h0
      have hget0 : (c0 :: rest).get ⟨0, h0⟩ = c0 := rfl
      rw [hget0] at hpos
      rw [hdet, rowCount_eq_head _ _ hpos]
      by_cases hmem : c0.name ∈ numericNames (c0 :: rest)
      · rw [if_pos hmem, capColumn_cells_length]
        rfl
      · rw [if_neg hmem]
        rfl
  · intro i hi
    have hpos := hmaster i hi
    constructor
    · intro hdt
      have hnmem := not_mem_numericNames t hnd i hi hdt
      rw [hdet, hpos, if_neg hnmem]
    · intro hdt
      have hmem := mem_numericNames t i hi hdt
      constructor
      · rw [hdet, hpos, if_pos hmem]
      · intro lo hi2 hb
        have hlh : lo ≤ hi2 := iqrBoundsOf_le hb
        have hcells : (DProc.capColumn (t.get ⟨i, hi⟩)).cells =
            (t.get ⟨i, hi⟩).cells.map (DProc.capCell lo hi2) := by
          simp only [DProc.capColumn, hb]
        refine ⟨hlh, hcells, ?_, ?_, ?_, ?_⟩
        · intro q h1 h2
          have h1' : ¬ (q < lo) := not_lt.mpr h1
          have h2' : ¬ (q > hi2) := not_lt.mpr h2
          simp only [DProc.capCell]
          rw [if_neg h1', if_neg h2']
        · intro q h1
          have h3 : ¬ (lo > hi2) := not_lt.mpr hlh
          simp only [DProc.capCell]
          rw [if_pos h1, if_neg h3]
        · intro q h1
          have h0 : ¬ (q < lo) := not_lt.mpr (hlh.trans h1.le)
          have h1' : q > hi2 := h1
          simp only [DProc.capCell]
          rw [if_neg h0, if_pos h1']
        · intro c hc q hcq
          rw [hcells] at hc
          rcases List.mem_map.mp hc with ⟨c0, hc0, hcc⟩
          subst hcq
          cases c0 with
          | na => simp [DProc.capCell] at hcc
          | str s => simp [DProc.capCell] at hcc
          | bool b => simp [DProc.capCell] at hcc
          | date s => simp [DProc.capCell] at hcc
          | num q0 =>
            simp only [DProc.capCell, Cell.num.injEq] at hcc
            by_cases h1 : q0 < lo
            · rw [if_pos h1,
                if_neg (not_lt.mpr hlh : ¬ (lo > hi2))] at hcc
              subst hcc
              exact ⟨le_refl _, hlh⟩
            · rw [if_neg h1] at hcc
              by_cases h2 : q0 > hi2
              · rw [if_pos h2] at hcc
                subst hcc
                exact ⟨hlh, le_refl _⟩
              · rw [if_neg h2] at hcc
                subst hcc
                exact ⟨not_lt.mp h1, not_lt.mp h2⟩

/-- C8 witness: capping `[1, 2, 3, 1000]` with the default iqr/cap
configuration computes bounds `[−374, 628]` and clamps `1000` to `628`. -/
theorem c8_iqr_cap_witness :
    (DProc.detect_outliers (some {})
        [Column.mk "v" DType.numeric
          [Cell.num 1, Cell.num 2, Cell.num 3, Cell.num 1000]])[0]? =
      some (Column.mk "v" DType.numeric
        [Cell.num 1, Cell.num 2, Cell.num 3, Cell.num 628]) := by
  have h := c8_iqr_cap {}
      [Column.mk "v" DType.numeric
        [Cell.num 1, Cell.num 2, Cell.num 3, Cell.num 1000]]
      rfl rfl (by decide)
  have h2 := ((h.2.2 0 (by decide)).2 rfl).1
  have hsort : List.insertionSort (fun a b => a ≤ b) [(1 : ℚ), 2, 3, 1000] =
      [1, 2, 3, 1000] := by
    norm_num [List.insertionSort, List.orderedInsert]
  have hq1 : quantileSorted [(1 : ℚ), 2, 3, 1000] (1/4) = 7/4 := by
    norm_num [quantileSorted, Int.toNat_ofNat]
  have ht2 : Int.toNat 2 = 2 := rfl
  have hq3 : quantileSorted [(1 : ℚ), 2, 3, 1000] (3/4) = 1009/4 := by
    norm_num [quantileSorted, ht2]
  have hbounds : DProc.iqrBoundsOf
      [Cell.num 1, Cell.num 2, Cell.num 3, Cell.num 1000] =
      some (-374, 628) := by
    norm_num [DProc.iqrBoundsOf, quantileQ, presentNums, Cell.asNum,
      List.filterMap_cons, hsort, hq1, hq3]
    intro hx
    simp at hx
  have hcap : DProc.capColumn
      (Column.mk "v" DType.numeric
        [Cell.num 1, Cell.num 2, Cell.num 3, Cell.num 1000]) =
      Column.mk "v" DType.numeric
        [Cell.num 1, Cell.num 2, Cell.num 3, Cell.num 628] := by
    simp only [DProc.capColumn, hbounds]
    norm_num [DProc.capCell]
  rw [h2]
  simp [List.get_eq_getElem, hcap]

/-! ### C10: the stored float ratios against the exact quotients -/

/-- `Int.log 2` is determined by the two-sided power bound. -/
theorem int_log2_eq (q : ℚ) (e : ℤ) (hq : 0 < q)
    (h1 : ((2:ℕ):ℚ) ^ e ≤ q) (h2 : q < ((2:ℕ):ℚ) ^ (e + 1)) :
    Int.log 2 q = e := by
  have hb : 1 < 2 := one_lt_two
  have hb2 : (1:ℚ) ≤ ((2:ℕ):ℚ) := by norm_num
  have hl1 : ((2:ℕ):ℚ) ^ Int.log 2 q ≤ q := Int.zpow_log_le_self hb hq
  have hl2 : q < ((2:ℕ):ℚ) ^ (Int.log 2 q + 1) :=
    Int.lt_zpow_succ_log_self hb q
  have hA : ¬ (Int.log 2 q + 1 ≤ e) := fun hc =>
    absurd hl2 (not_lt.mpr ((zpow_le_zpow_right₀ hb2 hc).trans h1))
  have hB : ¬ (e + 1 ≤ Int.log 2 q) := fun hc =>
    absurd h2 (not_lt.mpr ((zpow_le_zpow_right₀ hb2 hc).trans hl1))
  omega

/-- Evaluation form of `flPos` once the binade of the input is known. -/
theorem flPos_eval (q : ℚ) (e : ℤ) (hq : 0 < q)
    (h1 : ((2:ℕ):ℚ) ^ e ≤ q) (h2 : q < ((2:ℕ):ℚ) ^ (e + 1)) :
    App.flPos q =
      (App.roundEvenQ (q * (2:ℚ) ^ ((52:ℤ) - e)) : ℚ) *
        (2:ℚ) ^ (e - 52) := by
  simp only [App.flPos, int_log2_eq q e hq h1 h2]

theorem fl_zero : App.fl 0 = 0 := by
  simp [App.fl]

/-- The double closest to 1/6: `6004799503160661 · 2⁻⁵⁵`. -/
theorem fl_one_sixth :
    App.fl (1/6 : ℚ) = 6004799503160661 / 36028797018963968 := by
  have he := flPos_eval (1/6 : ℚ) (-3) (by norm_num) (by norm_num)
    (by norm_num)
  have hx : (1/6 : ℚ) * (2:ℚ) ^ ((52:ℤ) - (-3)) = 36028797018963968/6 := by
    norm_num
  have hf : (⌊(36028797018963968/6 : ℚ)⌋ : ℤ) = 6004799503160661 := by
    norm_num
  have hr : App.roundEvenQ ((1/6 : ℚ) * (2:ℚ) ^ ((52:ℤ) - (-3))) =
      6004799503160661 := by
    rw [hx]
    simp only [App.roundEvenQ]
    rw [hf]
    norm_num
  simp only [App.fl]
  rw [if_neg (by norm_num : ¬ ((1:ℚ)/6 = 0)),
    if_pos (by norm_num : (0:ℚ) < 1/6), he, hr]
  norm_num

/-- The double closest to 2/3: `6004799503160661 · 2⁻⁵³`. -/
theorem fl_two_thirds :
    App.fl (2/3 : ℚ) = 6004799503160661 / 9007199254740992 := by
  have he := flPos_eval (2/3 : ℚ) (-1) (by norm_num) (by norm_num)
    (by norm_num)
  have hx : (2/3 : ℚ) * (2:ℚ) ^ ((52:ℤ) - (-1)) = 18014398509481984/3 := by
    norm_num
  have hf : (⌊(18014398509481984/3 : ℚ)⌋ : ℤ) = 6004799503160661 := by
    norm_num
  have hr : App.roundEvenQ ((2/3 : ℚ) * (2:ℚ) ^ ((52:ℤ) - (-1))) =
      6004799503160661 := by
    rw [hx]
    simp only [App.roundEvenQ]
    rw [hf]
    norm_num
  simp only [App.fl]
  rw [if_neg (by norm_num : ¬ ((2:ℚ)/3 = 0)),
    if_pos (by norm_num : (0:ℚ) < 2/3), he, hr]
  norm_num

/-- C10 counterexample: on a reachable 6-value sample with bucket counts
(numeric 0, text 1, date 4, mixed 1), the four ratio values the program
stores are the binary64 roundings of 0, 1/6, 2/3 and 1/6, and their sum
is `1 − 2⁻⁵⁴` (the double printed `0.9999999999999999`), not 1: the
original exact-sum claim fails on the stored float ratios. -/
theorem c10_counterexample :
    (App.analyze_mixed_column
        [Cell.str "hello", Cell.str "2020-01-01", Cell.str "2020-01-02",
         Cell.str "2020-01-03", Cell.str "2020-01-04", Cell.str "AB12"]
        "c").map App.storedRatios =
      some (0, 6004799503160661 / 36028797018963968,
        6004799503160661 / 9007199254740992,
        6004799503160661 / 36028797018963968) ∧
    (0 : ℚ) + 6004799503160661 / 36028797018963968 +
        6004799503160661 / 9007199254740992 +
        6004799503160661 / 36028797018963968 = 1 - 1 / 18014398509481984 ∧
    (1 : ℚ) - 1 / 18014398509481984 ≠ 1 := by
  have hana : App.analyze_mixed_column
      [Cell.str "hello", Cell.str "2020-01-01", Cell.str "2020-01-02",
       Cell.str "2020-01-03", Cell.str "2020-01-04", Cell.str "AB12"]
      "c" =
      some { column_name := "c",
             sample_values := ["hello", "2020-01-01", "2020-01-02",
               "2020-01-03", "2020-01-04", "AB12"],
             numeric_ratio := 0, text_ratio := 1/6, date_ratio := 2/3,
             mixed_ratio := 1/6,
             suggestions := [App.Suggestion.mk "convert_to_date" "high",
               App.Suggestion.mk "keep_as_text" "safe"] } := by
    have hc1 : classify "hello" = Bucket.text := by decide
    have hc2 : classify "2020-01-01" = Bucket.date := by decide
    have hc3 : classify "2020-01-02" = Bucket.date := by decide
    have hc4 : classify "2020-01-03" = Bucket.date := by decide
    have hc5 : classify "2020-01-04" = Bucket.date := by decide
    have hc6 : classify "AB12" = Bucket.mixedAl := by decide
    norm_num [App.analyze_mixed_column, nonNa, Cell.isNa, cellToString,
      hc1, hc2, hc3, hc4, hc5, hc6, List.filter_cons,
      (by decide : ¬ (Bucket.text = Bucket.numeric)),
      (by decide : ¬ (Bucket.date = Bucket.numeric)),
      (by decide : ¬ (Bucket.mixedAl = Bucket.numeric)),
      (by decide : ¬ (Bucket.date = Bucket.text)),
      (by decide : ¬ (Bucket.mixedAl = Bucket.text)),
      (by decide : ¬ (Bucket.text = Bucket.date)),
      (by decide : ¬ (Bucket.mixedAl = Bucket.date)),
      (by decide : ¬ (Bucket.text = Bucket.mixedAl)),
      (by decide : ¬ (Bucket.date = Bucket.mixedAl))]
  refine ⟨?_, by norm_num, by norm_num⟩
  rw [hana]
  have h16 : App.fl ((6:ℚ)⁻¹) = 6004799503160661 / 36028797018963968 := by
    rw [show ((6:ℚ)⁻¹) = 1/6 by norm_num]
    exact fl_one_sixth
  simp [App.storedRatios, fl_zero, h16, fl_two_thirds]

end StatEz
